import Mathlib

/-!
Verification of the axiom-engine rule language against its implementation.

The definitions below are a shallow embedding of the TypeScript sources:
  * `src/src/interpreter/Interpreter.ts` (class `Interpreter`),
  * `src/unnamed/part_002`               (class `TypeChecker`),
  * the lexer in `src/src/checker/TypeChecker.ts` (second `Lexer`, the one
    with the `in` keyword and `//` comments).

Modelling conventions, used consistently:
  * The interpreter stores JavaScript values.  Finite JS numbers are
    modelled as exact rationals (`JSNum.fin`); `NaN`, `+Infinity` and
    `-Infinity` are explicit constructors.  This is exact for every number
    arising in the claims settled here (integer literals and division by
    zero); general double rounding and `-0` are outside the model and are
    marked at each definition they would affect.
  * JS objects, arrays and `Date`s compare by reference under `===`.  The
    embedding gives every constructed array/object/date a fresh allocation
    id drawn from a counter threaded through evaluation, and `===`
    compares those ids.
  * The JS `Map` environment is an insertion-ordered association list with
    `Map.get` / `Map.set` / `Map.has` / `Map.delete` semantics.
  * Recursion of the interpreter, checker and lexer is driven by an
    explicit fuel parameter so that every definition is structurally
    recursive and computes inside the kernel.  Fuel exhaustion is a
    distinguished outcome (`fuelOut`), never conflated with an error of
    the source program; any fuel at least the height of the input makes
    the embedding agree with the source.
-/

namespace RuleEngine

/-- JavaScript numbers: finite doubles are modelled as exact rationals,
with explicit NaN and infinities.  (`-0` is not modelled; integer
literals only produce `+0`.) -/
inductive JSNum where
  | fin (q : ℚ)
  | posInf
  | negInf
  | nan
deriving DecidableEq

/-- JS `===` on numbers: `NaN` is unequal to everything, finite values
compare as rationals. -/
def jsNumStrictEq : JSNum → JSNum → Bool
  | .fin a, .fin b => a = b
  | .posInf, .posInf => true
  | .negInf, .negInf => true
  | _, _ => false

/-- IEEE negation. -/
def jsNumNeg : JSNum → JSNum
  | .fin a => .fin (-a)
  | .posInf => .negInf
  | .negInf => .posInf
  | .nan => .nan

/-- IEEE addition (finite part exact over ℚ; exact for the integer values
arising in the claims). -/
def jsNumAdd : JSNum → JSNum → JSNum
  | .fin a, .fin b => .fin (a + b)
  | .nan, _ => .nan
  | _, .nan => .nan
  | .posInf, .negInf => .nan
  | .negInf, .posInf => .nan
  | .posInf, _ => .posInf
  | _, .posInf => .posInf
  | .negInf, _ => .negInf
  | _, .negInf => .negInf

/-- IEEE subtraction, via `a + (-b)`. -/
def jsNumSub (a b : JSNum) : JSNum := jsNumAdd a (jsNumNeg b)

/-- IEEE multiplication (finite part exact over ℚ; `0 × ∞ = NaN`). -/
def jsNumMul : JSNum → JSNum → JSNum
  | .fin a, .fin b => .fin (a * b)
  | .nan, _ => .nan
  | _, .nan => .nan
  | .posInf, .posInf => .posInf
  | .posInf, .negInf => .negInf
  | .negInf, .posInf => .negInf
  | .negInf, .negInf => .posInf
  | .posInf, .fin b => if b = 0 then .nan else if 0 < b then .posInf else .negInf
  | .fin a, .posInf => if a = 0 then .nan else if 0 < a then .posInf else .negInf
  | .negInf, .fin b => if b = 0 then .nan else if 0 < b then .negInf else .posInf
  | .fin a, .negInf => if a = 0 then .nan else if 0 < a then .negInf else .posInf

/-- IEEE division.  Division of a finite number by zero yields `NaN`
(zero dividend) or a signed infinity (nonzero dividend); this is what the
interpreter's `left / right` computes in JavaScript — no error is raised.
Finite-by-finite division is modelled exactly over ℚ (exact whenever the
double result is exact, which covers every division in the claims). -/
def jsNumDiv : JSNum → JSNum → JSNum
  | .fin a, .fin b =>
      if b = 0 then (if a = 0 then .nan else if 0 < a then .posInf else .negInf)
      else .fin (a / b)
  | .nan, _ => .nan
  | _, .nan => .nan
  | .posInf, .posInf => .nan
  | .posInf, .negInf => .nan
  | .negInf, .posInf => .nan
  | .negInf, .negInf => .nan
  | .posInf, .fin b => if 0 ≤ b then .posInf else .negInf
  | .negInf, .fin b => if 0 ≤ b then .negInf else .posInf
  | .fin _, .posInf => .fin 0
  | .fin _, .negInf => .fin 0

/-- IEEE `<` : any comparison involving NaN is false. -/
def jsNumLt : JSNum → JSNum → Bool
  | .nan, _ => false
  | _, .nan => false
  | .fin a, .fin b => a < b
  | .negInf, .negInf => false
  | .negInf, _ => true
  | _, .negInf => false
  | .posInf, _ => false
  | _, .posInf => true

/-- IEEE `≤` : any comparison involving NaN is false. -/
def jsNumLe : JSNum → JSNum → Bool
  | .nan, _ => false
  | _, .nan => false
  | a, b => jsNumLt a b || jsNumStrictEq a b

/-- Runtime values of the interpreter (the JavaScript values it actually
manipulates).  Arrays, plain objects and `Date`s carry an allocation id:
JS compares them by reference, and the id is the embedding's name for the
reference. -/
inductive Value where
  | num (n : JSNum)
  | str (s : String)
  | bool (b : Bool)
  | date (id : Nat) (ms : JSNum)
  | list (id : Nat) (elems : List Value)
  | obj (id : Nat) (props : List (String × Value))
  | null
  | undef

/-- JS truthiness: `false`, `0`, `NaN`, `""`, `null`, `undefined` are
falsy; every object (including empty arrays and dates) is truthy. -/
def truthy : Value → Bool
  | .bool b => b
  | .num (.fin q) => q ≠ 0
  | .num .nan => false
  | .num _ => true
  | .str s => s ≠ ""
  | .null => false
  | .undef => false
  | .date _ _ => true
  | .list _ _ => true
  | .obj _ _ => true

/-- JS `===` (no coercion): primitives by value, arrays / objects / dates
by reference (allocation id), `NaN ≠ NaN`. -/
def strictEq : Value → Value → Bool
  | .num a, .num b => jsNumStrictEq a b
  | .str a, .str b => a = b
  | .bool a, .bool b => a = b
  | .null, .null => true
  | .undef, .undef => true
  | .date i _, .date j _ => i = j
  | .list i _, .list j _ => i = j
  | .obj i _, .obj j _ => i = j
  | _, _ => false

/-- SameValueZero, the equality used by `Array.prototype.includes`: like
`===` except that `NaN` matches `NaN`. -/
def sameValueZero : Value → Value → Bool
  | .num .nan, .num .nan => true
  | a, b => strictEq a b

/-- Decimal rendering of a JS number.  Exact for integers, which are the
only numbers the claims print; non-integer rationals and the special
values are rendered approximately (JS double formatting is host code and
is not modelled further). -/
def jsNumToString : JSNum → String
  | .fin q => if q.den = 1 then toString q.num else toString q
  | .posInf => "Infinity"
  | .negInf => "-Infinity"
  | .nan => "NaN"

/-- JS `String(x)` coercion, fuelled for the nested array case.  Arrays
stringify as their elements joined by `,`; plain objects as
`[object Object]`.  `Date` stringification is a host-locale string not
modelled further (no claim observes it). -/
def jsToString : Nat → Value → String
  | 0, _ => ""
  | _ + 1, .num n => jsNumToString n
  | _ + 1, .str s => s
  | _ + 1, .bool b => if b then "true" else "false"
  | _ + 1, .null => "null"
  | _ + 1, .undef => "undefined"
  | _ + 1, .date _ _ => "[Date]"
  | fuel + 1, .list _ elems =>
      String.intercalate "," (elems.map fun v => jsToString fuel v)
  | _ + 1, .obj _ _ => "[object Object]"

/-- Value of a digit run, `none` if any character is not a digit. -/
def digitsVal : List Char → Option Nat
  | [] => some 0
  | c :: cs =>
      if c.isDigit then
        match digitsVal cs with
        | some _ => some ((c :: cs).foldl (fun a d => a * 10 + (d.toNat - 48)) 0)
        | none => none
      else none

/-- JS `Number(string)` coercion, modelled for trimmed optionally-signed
decimal digit runs (the empty string is `0`); everything else is `NaN`.
(The full JS numeric grammar — floats, exponents, hex — is host behavior
unreachable from type-checked rules and is not modelled.) -/
def strToNumber (s : String) : JSNum :=
  let t := s.trim.toList
  match t with
  | [] => .fin 0
  | '-' :: rest =>
      match rest, digitsVal rest with
      | _ :: _, some n => .fin (-(n : ℚ))
      | _, _ => .nan
  | _ =>
      match digitsVal t with
      | some n => .fin (n : ℚ)
      | none => .nan

/-- JS `ToNumber` on values, as used by unary `-` and the arithmetic
operators.  `Date` converts to its time value; arrays/objects go through
`ToPrimitive` (string round-trip) which is unreachable from type-checked
rules and is modelled as `NaN`. -/
def toNumber : Value → JSNum
  | .num n => n
  | .bool b => .fin (if b then 1 else 0)
  | .null => .fin 0
  | .undef => .nan
  | .date _ ms => ms
  | .str s => strToNumber s
  | .list _ _ => .nan
  | .obj _ _ => .nan

/-! ### The environment (a JS `Map` from names to values)

`Map.set` replaces the value of an existing key in place and appends new
keys at the end; `Map.get` returns `undefined` for absent keys;
`Map.delete` removes the key's entry.  Keys of a `Map` are unique, so
"first occurrence" below coincides with "the occurrence". -/

abbrev Env := List (String × Value)

/-- `Map.get`. -/
def envGet : Env → String → Option Value
  | [], _ => none
  | (k', v') :: rest, k => if k' = k then some v' else envGet rest k

/-- `Map.has`. -/
def envHas (env : Env) (k : String) : Bool := (envGet env k).isSome

/-- `Map.set`. -/
def envSet : Env → String → Value → Env
  | [], k, v => [(k, v)]
  | (k', v') :: rest, k, v =>
      if k' = k then (k, v) :: rest else (k', v') :: envSet rest k v

/-- `Map.delete`. -/
def envDel : Env → String → Env
  | [], _ => []
  | (k', v') :: rest, k => if k' = k then rest else (k', v') :: envDel rest k

/-- Interpreter state: the environment plus the allocation counter that
names JS references (fresh arrays / objects / dates). -/
structure St where
  env : Env
  nextId : Nat

/-! ### AST (from `src/src/common/AST.ts`)

The TS `Type` union is the primitive name strings `'int' | 'string' |
'bool'` (plus `'date'`, `'unknown'` and `'money'` used as runtime
strings), list types and object types; `prim` carries the string. -/

inductive Ty where
  | prim (s : String)
  | list (elementType : Ty)
  | obj (properties : List (String × Ty))

inductive Expr where
  | lit (value : Value) (type : Ty)
  | var (name : String)
  | unary (operator : String) (right : Expr)
  | binary (left : Expr) (operator : String) (right : Expr)
  | member (object : Expr) (property : String)
  | listE (elements : List Expr)
  | objE (properties : List (String × Expr))
  | call (callee : Expr) (arguments : List Expr)
  | lam (parameter : String) (body : Expr)

inductive Stmt where
  | varDecl (name : String) (annot : Ty) (initializer : Expr)
  | assignment (name : String) (value : Expr)
  | ifStmt (condition : Expr) (thenBranch : Stmt) (elseBranch : Option Stmt)
  | block (statements : List Stmt)
  | exprStmt (expression : Expr)

/-- Runtime errors, one constructor per `throw` site of the interpreter
(messages abstracted to constructors; `undefinedVariable` is the one
`RuntimeError`, the rest are plain `Error`s — the distinction is never
observed).  `hostTypeError` stands for the TypeErrors the JS host itself
would raise on value shapes unreachable from type-checked rules. -/
inductive RErr where
  | undefinedVariable (name : String)
  | onlyObjectsHaveProperties
  | propertyNotFound (prop : String)
  | calledOnNonList
  | invalidDateString (s : String)
  | cannotCompare
  | unknownCallee
  | unknownOperator (op : String)
  | hostTypeError
deriving DecidableEq

/-- Outcome of a fuelled computation: a result, a thrown error, or fuel
exhaustion (a modelling artifact, see the header). -/
inductive Out (ε α : Type) where
  | ok (a : α)
  | err (e : ε)
  | fuelOut

/-! ### Pure helpers of the interpreter -/

/-- Characters of `hay` start with the characters of `needle`. -/
def charsStart : List Char → List Char → Bool
  | _, [] => true
  | [], _ :: _ => false
  | c :: cs, d :: ds => c = d && charsStart cs ds

/-- Substring test over character lists (needle is the first argument so
the recursion is on the haystack). -/
def charsHaveSub (needle : List Char) : List Char → Bool
  | [] => charsStart [] needle
  | c :: t => charsStart (c :: t) needle || charsHaveSub needle t

/-- `String.prototype.startsWith`. -/
def strStarts (hay pre : String) : Bool := charsStart hay.toList pre.toList

/-- `String.prototype.endsWith`. -/
def strEnds (hay suf : String) : Bool :=
  charsStart hay.toList.reverse suf.toList.reverse

/-- `String.prototype.includes`. -/
def strHas (hay sub : String) : Bool := charsHaveSub sub.toList hay.toList

/-- Values whose `ToPrimitive` is a string, making JS `+` concatenate:
strings themselves, and objects / arrays / dates (whose default
`ToPrimitive` goes through `toString`). -/
def isStringish : Value → Bool
  | .str _ => true
  | .list _ _ => true
  | .obj _ _ => true
  | .date _ _ => true
  | _ => false

/-- JS `left + right`: string concatenation when either side converts to
a string, numeric addition otherwise. -/
def jsAdd (fuel : Nat) (l r : Value) : Value :=
  if isStringish l || isStringish r then
    .str (jsToString fuel l ++ jsToString fuel r)
  else
    .num (jsNumAdd (toNumber l) (toNumber r))

/-- `Interpreter.evaluateComparison`: numbers compare numerically, two
`Date`s compare by time value, anything else throws. -/
def evalComparison (l r : Value) (cmp : JSNum → JSNum → Bool) : Out RErr Value :=
  match l, r with
  | .num a, .num b => .ok (.bool (cmp a b))
  | .date _ a, .date _ b => .ok (.bool (cmp a b))
  | _, _ => .err .cannotCompare

/-- JS `right.includes(left)` as used for `in`: membership by
SameValueZero on arrays, substring test on strings, a host TypeError on
anything else (`includes` is not a function there). -/
def jsIncludes (fuel : Nat) (l r : Value) : Out RErr Value :=
  match r with
  | .list _ elems => .ok (.bool (elems.any fun x => sameValueZero x l))
  | .str s => .ok (.bool (strHas s (jsToString fuel l)))
  | _ => .err .hostTypeError

/-- `Interpreter.evaluateUnary` after the operand is evaluated. -/
def evalUnaryOp (op : String) (v : Value) : Out RErr Value :=
  if op = "!" then .ok (.bool (!truthy v))
  else if op = "-" then .ok (.num (jsNumNeg (toNumber v)))
  else .err (.unknownOperator op)

/-- `Interpreter.evaluateBinary` after both operands are evaluated (the
source evaluates `left` and `right` before this switch — there is no
short-circuiting).  `&&` / `||` return one of the operand values, as JS
does. -/
def evalBinaryOp (fuel : Nat) (op : String) (l r : Value) : Out RErr Value :=
  if op = "+" then .ok (jsAdd fuel l r)
  else if op = "-" then .ok (.num (jsNumSub (toNumber l) (toNumber r)))
  else if op = "*" then .ok (.num (jsNumMul (toNumber l) (toNumber r)))
  else if op = "/" then .ok (.num (jsNumDiv (toNumber l) (toNumber r)))
  else if op = "==" then .ok (.bool (strictEq l r))
  else if op = "!=" then .ok (.bool (!strictEq l r))
  else if op = ">" then evalComparison l r (fun a b => jsNumLt b a)
  else if op = ">=" then evalComparison l r (fun a b => jsNumLe b a)
  else if op = "<" then evalComparison l r jsNumLt
  else if op = "<=" then evalComparison l r jsNumLe
  else if op = "&&" then .ok (if truthy l then r else l)
  else if op = "||" then .ok (if truthy l then l else r)
  else if op = "in" then jsIncludes fuel l r
  else .err (.unknownOperator op)

/-- Own-property lookup on an object's property list (first match; the
construction below keeps keys unique).  Prototype-chain members
(`toString` …) would be visible to the source's `in` operator but are
host functions outside the value model; no type-checked rule reaches
them. -/
def propGet : List (String × Value) → String → Option Value
  | [], _ => none
  | (k', v') :: rest, k => if k' = k then some v' else propGet rest k

/-- Property assignment used when building object literals: JS keeps the
position of the first assignment and the value of the last. -/
def propSet : List (String × Value) → String → Value → List (String × Value)
  | [], k, v => [(k, v)]
  | (k', v') :: rest, k, v =>
      if k' = k then (k, v) :: rest else (k', v') :: propSet rest k v

/-- `new Date(s)` for the ISO-8601 instants `YYYY-MM-DD` and
`YYYY-MM-DDTHH:MM:SSZ`, the subset exercised by the repository.  The
returned time value is an order-preserving encoding of the instant (no
claim observes absolute epoch milliseconds); every other string is an
Invalid Date, exactly the condition the source turns into an error. -/
def jsDateParse (s : String) : Option JSNum :=
  let cs := s.toList
  let grab := fun (n : Nat) (cs : List Char) =>
    let run := cs.take n
    if run.length = n && run.all Char.isDigit then
      some ((digitsVal run).getD 0, cs.drop n)
    else none
  match grab 4 cs with
  | none => none
  | some (y, cs1) =>
    match cs1 with
    | '-' :: cs2 =>
      match grab 2 cs2 with
      | none => none
      | some (mo, cs3) =>
        match cs3 with
        | '-' :: cs4 =>
          match grab 2 cs4 with
          | none => none
          | some (d, cs5) =>
            match cs5 with
            | [] => some (.fin ((((((y * 13 + mo) * 32 + d) * 24) * 60) * 60 : Nat) : ℚ))
            | 'T' :: cs6 =>
              match grab 2 cs6 with
              | none => none
              | some (h, cs7) =>
                match cs7 with
                | ':' :: cs8 =>
                  match grab 2 cs8 with
                  | none => none
                  | some (mi, cs9) =>
                    match cs9 with
                    | ':' :: cs10 =>
                      match grab 2 cs10 with
                      | none => none
                      | some (sec, cs11) =>
                        match cs11 with
                        | ['Z'] =>
                          some (.fin ((((((y * 13 + mo) * 32 + d) * 24 + h) * 60 + mi) * 60 + sec : Nat) : ℚ))
                        | _ => none
                    | _ => none
                | _ => none
            | _ => none
        | _ => none
    | _ => none

/-- Accumulator of the `exists` / `all` iteration (`Interpreter.evaluateCall`):
still looping, stopped at the short-circuit value, stopped by a thrown
error, or out of fuel. -/
inductive LoopAcc where
  | running
  | finished
  | failed (e : RErr)
  | out

/-- `Interpreter.evaluate` (with `evaluateCall`, `evaluateMember`,
`evaluateList`, `evaluateObject` inlined as the corresponding match
arms), driven by fuel.  Statement handlers are in `execute` below. -/
def evaluate : Nat → Expr → St → Out RErr Value × St
  | 0, _, st => (.fuelOut, st)
  | fuel + 1, e, st =>
    match e with
    | .lit v _ => (.ok v, st)
    | .var name => (.ok ((envGet st.env name).getD .undef), st)
    | .lam _ _ =>
        -- `evaluate` has no `Lambda` case: the switch's default throws.
        (.err .hostTypeError, st)
    | .unary op r =>
        match evaluate fuel r st with
        | (.ok v, st') => (evalUnaryOp op v, st')
        | other => other
    | .binary l op r =>
        match evaluate fuel l st with
        | (.ok lv, st1) =>
            match evaluate fuel r st1 with
            | (.ok rv, st2) => (evalBinaryOp fuel op lv rv, st2)
            | other => other
        | other => other
    | .member o p =>
        match evaluate fuel o st with
        | (.ok v, st') =>
            match v with
            | .obj _ props =>
                match propGet props p with
                | some pv => (.ok pv, st')
                | none => (.err (.propertyNotFound p), st')
            | .list _ elems =>
                -- arrays are `typeof === 'object'`: their own properties
                -- are `length` and the canonical numeric indices
                if p = "length" then (.ok (.num (.fin elems.length)), st')
                else
                  match digitsVal p.toList with
                  | some i =>
                      if p = toString i && i < elems.length then
                        (.ok (elems.getD i .undef), st')
                      else (.err (.propertyNotFound p), st')
                  | none => (.err (.propertyNotFound p), st')
            | .date _ _ =>
                -- dates are `typeof === 'object'` with no own properties
                (.err (.propertyNotFound p), st')
            | _ => (.err .onlyObjectsHaveProperties, st')
        | other => other
    | .listE elements =>
        let folded := elements.foldl
          (fun (acc : Out RErr (List Value) × St) (a : Expr) =>
            match acc with
            | (.ok vs, st') =>
                match evaluate fuel a st' with
                | (.ok v, st'') => ((.ok (vs ++ [v]) : Out RErr (List Value)), st'')
                | (.err er, st'') => (.err er, st'')
                | (.fuelOut, st'') => (.fuelOut, st'')
            | other => other)
          ((.ok [], st) : Out RErr (List Value) × St)
        match folded with
        | (.ok vs, st') => (.ok (.list st'.nextId vs), ⟨st'.env, st'.nextId + 1⟩)
        | (.err er, st') => (.err er, st')
        | (.fuelOut, st') => (.fuelOut, st')
    | .objE properties =>
        let folded := properties.foldl
          (fun (acc : Out RErr (List (String × Value)) × St) (kv : String × Expr) =>
            match acc with
            | (.ok ps, st') =>
                match evaluate fuel kv.2 st' with
                | (.ok v, st'') => ((.ok (propSet ps kv.1 v) : Out RErr (List (String × Value))), st'')
                | (.err er, st'') => (.err er, st'')
                | (.fuelOut, st'') => (.fuelOut, st'')
            | other => other)
          ((.ok [], st) : Out RErr (List (String × Value)) × St)
        match folded with
        | (.ok ps, st') => (.ok (.obj st'.nextId ps), ⟨st'.env, st'.nextId + 1⟩)
        | (.err er, st') => (.err er, st')
        | (.fuelOut, st') => (.fuelOut, st')
    | .call callee args =>
        match callee with
        | .var "has" =>
            -- the source wraps `evaluate(arguments[0])` in try/catch and
            -- converts ANY thrown error to false (a call with no
            -- argument throws reading `.kind` inside the try, also
            -- caught); fuel exhaustion is propagated, never converted
            match args with
            | a :: _ =>
                match evaluate fuel a st with
                | (.ok _, st') => (.ok (.bool true), st')
                | (.err _, st') => (.ok (.bool false), st')
                | (.fuelOut, st') => (.fuelOut, st')
            | [] => (.ok (.bool false), st)
        | .member o prop =>
            if prop = "exists" || prop = "all" then
              match evaluate fuel o st with
              | (.ok (.list _ items), st1) =>
                  match args with
                  | (.lam param body) :: _ =>
                      let stopVal : Bool := decide (prop = "exists")
                      let prev := envGet st1.env param
                      let folded := items.foldl
                        (fun (acc : LoopAcc × St) (item : Value) =>
                          match acc with
                          | (.running, st') =>
                              match evaluate fuel body ⟨envSet st'.env param item, st'.nextId⟩ with
                              | (.ok (.bool b), st'') =>
                                  if b = stopVal then ((.finished : LoopAcc), st'')
                                  else (.running, st'')
                              | (.ok _, st'') => (.running, st'')
                              | (.err er, st'') => (.failed er, st'')
                              | (.fuelOut, st'') => (.out, st'')
                          | other => other)
                        ((.running : LoopAcc), st1)
                      -- the `finally` block: restore the parameter's
                      -- previous binding (or remove it) on every exit
                      let env' := match prev with
                        | some pv => envSet folded.2.env param pv
                        | none => envDel folded.2.env param
                      let st3 : St := ⟨env', folded.2.nextId⟩
                      match folded.1 with
                      | .running => (.ok (.bool (!stopVal)), st3)
                      | .finished => (.ok (.bool stopVal), st3)
                      | .failed er => (.err er, st3)
                      | .out => (.fuelOut, st3)
                  | _ =>
                      -- no argument / non-lambda argument: the host
                      -- throws reading `.parameter` / `.body`
                      (.err .hostTypeError, st1)
              | (.ok _, st1) => (.err .calledOnNonList, st1)
              | other => other
            else
              -- a Member callee that is not a macro skips the argument
              -- evaluation and reaches the final throw
              (.err .unknownCallee, st)
        | .var funcName =>
            -- global functions: all arguments are evaluated first
            let folded := args.foldl
              (fun (acc : Out RErr (List Value) × St) (a : Expr) =>
                match acc with
                | (.ok vs, st') =>
                    match evaluate fuel a st' with
                    | (.ok v, st'') => ((.ok (vs ++ [v]) : Out RErr (List Value)), st'')
                    | (.err er, st'') => (.err er, st'')
                    | (.fuelOut, st'') => (.fuelOut, st'')
                | other => other)
              ((.ok [], st) : Out RErr (List Value) × St)
            match folded with
            | (.ok vs, st') =>
                let a0 := vs.getD 0 .undef
                let a1 := vs.getD 1 .undef
                if funcName = "startsWith" then
                  (.ok (.bool (strStarts (jsToString fuel a0) (jsToString fuel a1))), st')
                else if funcName = "endsWith" then
                  (.ok (.bool (strEnds (jsToString fuel a0) (jsToString fuel a1))), st')
                else if funcName = "contains" then
                  (.ok (.bool (strHas (jsToString fuel a0) (jsToString fuel a1))), st')
                else if funcName = "length" then
                  (.ok (.num (.fin ((jsToString fuel a0).length : ℚ))), st')
                else if funcName = "timestamp" then
                  -- `new Date(x)`: strings go through the date parser,
                  -- numbers (and number-coercible scalars) are epoch
                  -- milliseconds; an Invalid Date throws
                  match a0 with
                  | .str s =>
                      match jsDateParse s with
                      | some ms => (.ok (.date st'.nextId ms), ⟨st'.env, st'.nextId + 1⟩)
                      | none => (.err (.invalidDateString s), st')
                  | .num (.fin q) => (.ok (.date st'.nextId (.fin q)), ⟨st'.env, st'.nextId + 1⟩)
                  | _ => (.err (.invalidDateString (jsToString fuel a0)), st')
                else (.err .unknownCallee, st')
            | (.err er, st') => (.err er, st')
            | (.fuelOut, st') => (.fuelOut, st')
        | _ => (.err .unknownCallee, st)

/-- `Interpreter.execute` (statement dispatch).  `VarDecl` and
`Assignment` handlers return `null`; `If` and `Block` return the value
of what they executed. -/
def execute : Nat → Stmt → St → Out RErr Value × St
  | 0, _, st => (.fuelOut, st)
  | fuel + 1, s, st =>
    match s with
    | .varDecl name _ init =>
        match evaluate fuel init st with
        | (.ok v, st') => (.ok .null, ⟨envSet st'.env name v, st'.nextId⟩)
        | other => other
    | .assignment name e =>
        -- the value is evaluated first; only then is the target checked
        match evaluate fuel e st with
        | (.ok v, st') =>
            if envHas st'.env name then (.ok .null, ⟨envSet st'.env name v, st'.nextId⟩)
            else (.err (.undefinedVariable name), st')
        | other => other
    | .ifStmt c t els =>
        match evaluate fuel c st with
        | (.ok v, st') =>
            if truthy v then execute fuel t st'
            else
              match els with
              | some s2 => execute fuel s2 st'
              | none => (.ok .null, st')
        | other => other
    | .block ss =>
        ss.foldl
          (fun acc s' =>
            match acc with
            | (.ok _, st') => execute fuel s' st'
            | other => other)
          ((.ok .null, st) : Out RErr Value × St)
    | .exprStmt e => evaluate fuel e st

/-- The statement loop of `Interpreter.interpret`: `lastValue` starts as
`null` and is replaced by each statement's result; a thrown error
aborts. -/
def runStmts (fuel : Nat) (statements : List Stmt) (st : St) : Out RErr Value × St :=
  statements.foldl
    (fun acc s =>
      match acc with
      | (.ok _, st') => execute fuel s st'
      | other => other)
    ((.ok .null, st) : Out RErr Value × St)

/-- `Interpreter.interpret`: seed the environment from the context (whose
values carry allocation ids below `firstId`) and run the statements. -/
def interpret (fuel : Nat) (statements : List Stmt) (context : Env) (firstId : Nat) :
    Out RErr Value × St :=
  runStmts fuel statements ⟨context, firstId⟩

/-! ### Environment lemmas -/

theorem envSet_get_self (env : Env) (k : String) (v : Value)
    (h : envGet env k = some v) : envSet env k v = env := by
  induction env with
  | nil => simp [envGet] at h
  | cons kv rest ih =>
      obtain ⟨k', v'⟩ := kv
      by_cases hk : k' = k
      · subst hk
        simp [envGet] at h
        simp [envSet, h]
      · simp [envGet, hk] at h
        simp [envSet, hk, ih h]

theorem envSet_envSet (env : Env) (k : String) (v w : Value) :
    envSet (envSet env k v) k w = envSet env k w := by
  induction env with
  | nil => simp [envSet]
  | cons kv rest ih =>
      obtain ⟨k', v'⟩ := kv
      by_cases hk : k' = k
      · subst hk; simp [envSet]
      · simp [envSet, hk, ih]

theorem envDel_absent (env : Env) (k : String)
    (h : envGet env k = none) : envDel env k = env := by
  induction env with
  | nil => simp [envDel]
  | cons kv rest ih =>
      obtain ⟨k', v'⟩ := kv
      by_cases hk : k' = k
      · subst hk; simp [envGet] at h
      · simp [envGet, hk] at h
        simp [envDel, hk, ih h]

theorem envDel_envSet_absent (env : Env) (k : String) (v : Value)
    (h : envGet env k = none) : envDel (envSet env k v) k = env := by
  induction env with
  | nil => simp [envSet, envDel]
  | cons kv rest ih =>
      obtain ⟨k', v'⟩ := kv
      by_cases hk : k' = k
      · subst hk; simp [envGet] at h
      · simp [envGet, hk] at h
        simp [envSet, envDel, hk, ih h]

/-- Generic preservation of an invariant by `List.foldl`. -/
theorem foldl_inv {α β : Type} {P : β → Prop} {f : β → α → β}
    (hf : ∀ b a, P b → P (f b a)) :
    ∀ (l : List α) (b : β), P b → P (l.foldl f b) := by
  intro l
  induction l with
  | nil => intro b hb; exact hb
  | cons a t ih => intro b hb; exact ih _ (hf b a hb)

/-! ### The type checker (`TypeChecker` of `src/unnamed/part_002`) -/

/-- Type errors, one constructor per `throw` site of the checker
(messages abstracted to constructors). -/
inductive TErr where
  | varDeclMismatch (name : String)
  | alreadyDeclared (name : String)
  | undefinedVariable (name : String)
  | assignMismatch (name : String)
  | ifCondNotBool
  | lambdaOutsideMacro
  | bangOperand
  | negOperand
  | plusOperands
  | arithOperands (op : String)
  | equalityOperands
  | comparisonOperands (op : String)
  | logicalOperands (op : String)
  | inRightNotList
  | inElemMismatch
  | memberOnNonObject
  | propertyNotFound (p : String)
  | listNotHomogeneous (i : Nat)
  | hasArgCount
  | hasArgNotMember
  | undefinedVariableInHas (name : String)
  | iterOnNonList (m : String)
  | iterNeedsLambda (m : String)
  | shadowsExisting (p : String)
  | iterBodyNotBool (m : String)
  | argCount (f : String)
  | argTypeMismatch (i : Nat)
  | unknownCall
  | unknownOperator (op : String)
  | notEndingWithExpression
  | returnMissingProp (k : String)
  | returnMismatchAtProp (k : String)
  | returnMismatch
deriving DecidableEq

/-- The checker's variable map (a JS `Map` from names to types). -/
abbrev TyEnv := List (String × Ty)

def tyGet : TyEnv → String → Option Ty
  | [], _ => none
  | (k', v') :: rest, k => if k' = k then some v' else tyGet rest k

def tyHas (env : TyEnv) (k : String) : Bool := (tyGet env k).isSome

def tySet : TyEnv → String → Ty → TyEnv
  | [], k, v => [(k, v)]
  | (k', v') :: rest, k, v =>
      if k' = k then (k, v) :: rest else (k', v') :: tySet rest k v

/-- `t` is the primitive named `s` (the source compares the `Type` union
against primitive name strings with `===`). -/
def Ty.isPrimNamed : Ty → String → Bool
  | .prim x, s => x = s
  | _, _ => false

/-- A primitive (string-represented) member of the `Type` union. -/
def Ty.isPrim : Ty → Bool
  | .prim _ => true
  | _ => false

/-- Insertion into a sorted list of strings, for `Object.keys(...).sort()`
(JS sorts strings by UTF-16 code units; `String` order agrees on the
identifiers occurring here). -/
def strInsert (s : String) : List String → List String
  | [] => [s]
  | x :: xs => if s ≤ x then s :: x :: xs else x :: strInsert s xs

def sortStrings (l : List String) : List String := l.foldr strInsert []

/-- `TypeChecker.areTypesEqual`: structural equality on types with
`'unknown'` as a wildcard **among primitives only** — when one side is
the string `'unknown'` and the other is a list or object value, neither
the both-strings branch nor the both-objects branch applies and the
function falls through to `false`.  Object types compare by sorted key
lists and per-key recursion, except that an empty `t2` matches any `t1`.
Fuelled (`none` = out of fuel). -/
def areTypesEqual : Nat → Ty → Ty → Option Bool
  | 0, _, _ => none
  | fuel + 1, t1, t2 =>
    match t1, t2 with
    | .prim a, .prim b => some (a = "unknown" || b = "unknown" || a = b)
    | .list e1, .list e2 => areTypesEqual fuel e1 e2
    | .obj p1, .obj p2 =>
        if p2.length = 0 then some true
        else
          let k1 := sortStrings (p1.map (·.1))
          let k2 := sortStrings (p2.map (·.1))
          if k1.length = k2.length then
            (k1.zip k2).foldl
              (fun (acc : Option Bool) kv =>
                match acc with
                | some true =>
                    if kv.1 = kv.2 then
                      match tyGet p1 kv.1, tyGet p2 kv.2 with
                      | some v1, some v2 => areTypesEqual fuel v1 v2
                      | _, _ => some false
                    else some false
                | other => other)
              (some true)
          else some false
    | _, _ => some false

/-- The contract consumed by `TypeChecker.check`
(`ContractDef` of `src/src/common/Contract.ts`). -/
structure ContractDef where
  name : String
  inputs : List (String × Ty)
  outputs : Option Ty

/-- The non-`Member` root of a member chain (`TypeChecker.checkHasArg`
recurses through `Member` nodes; this extracts where that recursion
lands). -/
def chainRoot : Expr → Expr
  | .member o _ => chainRoot o
  | e => e

/-- `TypeChecker.checkExpression` (with `checkBinary`, `checkUnary`,
`checkMember`, `checkList`, `checkObject`, `checkCall` and `checkHasArg`
inlined), fuelled.  The macro case binds the lambda parameter, checks the
body, and deletes the parameter again; as the parameter never shadows an
existing name (that is an error), the net environment is unchanged and
the embedding passes the extended environment only to the body. -/
def checkExpression : Nat → TyEnv → Expr → Out TErr Ty
  | 0, _, _ => .fuelOut
  | fuel + 1, env, e =>
    match e with
    | .lit _ ty => .ok ty
    | .var name =>
        match tyGet env name with
        | some t => .ok t
        | none => .err (.undefinedVariable name)
    | .lam _ _ => .err .lambdaOutsideMacro
    | .unary op r =>
        match checkExpression fuel env r with
        | .ok t =>
            if op = "!" then
              if t.isPrimNamed "bool" then .ok (.prim "bool") else .err .bangOperand
            else if op = "-" then
              if t.isPrimNamed "int" then .ok (.prim "int") else .err .negOperand
            else .err (.unknownOperator op)
        | other => other
    | .binary l op r =>
        match checkExpression fuel env l with
        | .ok tl =>
            match checkExpression fuel env r with
            | .ok tr =>
                if op = "+" then
                  if tl.isPrimNamed "int" && tr.isPrimNamed "int" then .ok (.prim "int")
                  else if tl.isPrimNamed "string" && tr.isPrimNamed "string" then .ok (.prim "string")
                  else .err .plusOperands
                else if op = "-" || op = "*" || op = "/" then
                  if tl.isPrimNamed "int" && tr.isPrimNamed "int" then .ok (.prim "int")
                  else .err (.arithOperands op)
                else if op = "==" || op = "!=" then
                  match areTypesEqual fuel tl tr with
                  | some true => .ok (.prim "bool")
                  | some false =>
                      if tl.isPrimNamed "unknown" || tr.isPrimNamed "unknown" then .ok (.prim "bool")
                      else .err .equalityOperands
                  | none => .fuelOut
                else if op = ">" || op = ">=" || op = "<" || op = "<=" then
                  if tl.isPrimNamed "int" && tr.isPrimNamed "int" then .ok (.prim "bool")
                  else if tl.isPrimNamed "date" && tr.isPrimNamed "date" then .ok (.prim "bool")
                  else .err (.comparisonOperands op)
                else if op = "&&" || op = "||" then
                  if tl.isPrimNamed "bool" && tr.isPrimNamed "bool" then .ok (.prim "bool")
                  else .err (.logicalOperands op)
                else if op = "in" then
                  match tr with
                  | .list elemT =>
                      match areTypesEqual fuel tl elemT with
                      | some true => .ok (.prim "bool")
                      | some false => .err .inElemMismatch
                      | none => .fuelOut
                  | _ => .err .inRightNotList
                else .err (.unknownOperator op)
            | other => other
        | other => other
    | .member o p =>
        match checkExpression fuel env o with
        | .ok tobj =>
            match tobj with
            | .obj props =>
                match tyGet props p with
                | some t => .ok t
                | none => .err (.propertyNotFound p)
            | _ => .err .memberOnNonObject
        | other => other
    | .listE elements =>
        match elements with
        | [] => .ok (.list (.prim "unknown"))
        | e0 :: rest =>
            match checkExpression fuel env e0 with
            | .ok t0 =>
                let folded := rest.enum.foldl
                  (fun (acc : Out TErr Unit) (ie : Nat × Expr) =>
                    match acc with
                    | .ok _ =>
                        match checkExpression fuel env ie.2 with
                        | .ok t =>
                            match areTypesEqual fuel t t0 with
                            | some true => (.ok () : Out TErr Unit)
                            | some false => .err (.listNotHomogeneous (ie.1 + 1))
                            | none => .fuelOut
                        | .err er => .err er
                        | .fuelOut => .fuelOut
                    | other => other)
                  ((.ok ()) : Out TErr Unit)
                match folded with
                | .ok _ => .ok (.list t0)
                | .err er => .err er
                | .fuelOut => .fuelOut
            | other => other
    | .objE properties =>
        let folded := properties.foldl
          (fun (acc : Out TErr (List (String × Ty))) (kv : String × Expr) =>
            match acc with
            | .ok ps =>
                match checkExpression fuel env kv.2 with
                | .ok t => (.ok (tySet ps kv.1 t) : Out TErr (List (String × Ty)))
                | .err er => .err er
                | .fuelOut => .fuelOut
            | other => other)
          ((.ok []) : Out TErr (List (String × Ty)))
        match folded with
        | .ok ps => .ok (.obj ps)
        | .err er => .err er
        | .fuelOut => .fuelOut
    | .call callee args =>
        match callee with
        | .var "has" =>
            if args.length = 1 then
              match args with
              | (.member o p) :: _ =>
                  -- checkHasArg: walk the member chain to its root
                  match chainRoot (.member o p) with
                  | .var n =>
                      if tyHas env n then .ok (.prim "bool")
                      else .err (.undefinedVariableInHas n)
                  | root =>
                      match checkExpression fuel env root with
                      | .ok _ => .ok (.prim "bool")
                      | .err er => .err er
                      | .fuelOut => .fuelOut
              | _ => .err .hasArgNotMember
            else .err .hasArgCount
        | .member o prop =>
            if prop = "exists" || prop = "all" then
              match checkExpression fuel env o with
              | .ok tobj =>
                  match tobj with
                  | .list elemT =>
                      match args with
                      | [.lam param body] =>
                          if tyHas env param then .err (.shadowsExisting param)
                          else
                            match checkExpression fuel (tySet env param elemT) body with
                            | .ok bodyT =>
                                if bodyT.isPrimNamed "bool" then .ok (.prim "bool")
                                else .err (.iterBodyNotBool prop)
                            | .err er => .err er
                            | .fuelOut => .fuelOut
                      | _ => .err (.iterNeedsLambda prop)
                  | _ => .err (.iterOnNonList prop)
              | other => other
            else .err .unknownCall
        | .var funcName =>
            if funcName = "startsWith" || funcName = "endsWith" || funcName = "contains" then
              if args.length = 2 then
                match checkExpression fuel env (args.getD 0 (.lit .null (.prim "unknown"))) with
                | .ok t0 =>
                    match areTypesEqual fuel t0 (.prim "string") with
                    | some true =>
                        match checkExpression fuel env (args.getD 1 (.lit .null (.prim "unknown"))) with
                        | .ok t1 =>
                            match areTypesEqual fuel t1 (.prim "string") with
                            | some true => .ok (.prim "bool")
                            | some false => .err (.argTypeMismatch 1)
                            | none => .fuelOut
                        | other => other
                    | some false => .err (.argTypeMismatch 0)
                    | none => .fuelOut
                | other => other
              else .err (.argCount funcName)
            else if funcName = "length" then
              if args.length = 1 then
                match checkExpression fuel env (args.getD 0 (.lit .null (.prim "unknown"))) with
                | .ok t0 =>
                    match areTypesEqual fuel t0 (.prim "string") with
                    | some true => .ok (.prim "int")
                    | some false => .err (.argTypeMismatch 0)
                    | none => .fuelOut
                | other => other
              else .err (.argCount funcName)
            else if funcName = "timestamp" then
              if args.length = 1 then
                match checkExpression fuel env (args.getD 0 (.lit .null (.prim "unknown"))) with
                | .ok t0 =>
                    match areTypesEqual fuel t0 (.prim "string") with
                    | some true => .ok (.prim "date")
                    | some false => .err (.argTypeMismatch 0)
                    | none => .fuelOut
                | other => other
              else .err (.argCount funcName)
            else .err .unknownCall
        | _ => .err .unknownCall

/-- `TypeChecker.checkStatement`, returning the (possibly extended)
variable map.  Branch checking threads the flat map through (no block
scoping). -/
def checkStatement : Nat → TyEnv → Stmt → Out TErr TyEnv
  | 0, _, _ => .fuelOut
  | fuel + 1, env, s =>
    match s with
    | .varDecl name annot init =>
        match checkExpression fuel env init with
        | .ok initT =>
            match areTypesEqual fuel initT annot with
            | some true =>
                if tyHas env name then .err (.alreadyDeclared name)
                else .ok (tySet env name annot)
            | some false => .err (.varDeclMismatch name)
            | none => .fuelOut
        | .err er => .err er
        | .fuelOut => .fuelOut
    | .assignment name value =>
        match tyGet env name with
        | some t =>
            match checkExpression fuel env value with
            | .ok vt =>
                match areTypesEqual fuel t vt with
                | some true => .ok env
                | some false => .err (.assignMismatch name)
                | none => .fuelOut
            | .err er => .err er
            | .fuelOut => .fuelOut
        | none => .err (.undefinedVariable name)
    | .ifStmt c t els =>
        match checkExpression fuel env c with
        | .ok ct =>
            if ct.isPrimNamed "bool" then
              match checkStatement fuel env t with
              | .ok env1 =>
                  match els with
                  | some s2 => checkStatement fuel env1 s2
                  | none => .ok env1
              | .err er => .err er
              | .fuelOut => .fuelOut
            else .err .ifCondNotBool
        | .err er => .err er
        | .fuelOut => .fuelOut
    | .block ss =>
        ss.foldl
          (fun (acc : Out TErr TyEnv) s' =>
            match acc with
            | .ok env' => checkStatement fuel env' s'
            | other => other)
          ((.ok env) : Out TErr TyEnv)
    | .exprStmt e =>
        match checkExpression fuel env e with
        | .ok _ => .ok env
        | .err er => .err er
        | .fuelOut => .fuelOut

/-- `TypeChecker.validateObjectMatch`: property-wise comparison of the
declared output object type against the inferred one; reports the first
missing or mismatching key.  Extra properties in the actual type are
allowed, and two non-object types always mismatch here. -/
def validateObjectMatch (fuel : Nat) (expected actual : Ty) : Out TErr Unit :=
  match expected, actual with
  | .obj pe, .obj pa =>
      pe.foldl
        (fun (acc : Out TErr Unit) kv =>
          match acc with
          | .ok _ =>
              match tyGet pa kv.1 with
              | none => .err (.returnMissingProp kv.1)
              | some actualProp =>
                  match areTypesEqual fuel kv.2 actualProp with
                  | some true => (.ok () : Out TErr Unit)
                  | some false => .err (.returnMismatchAtProp kv.1)
                  | none => .fuelOut
          | other => other)
        ((.ok ()) : Out TErr Unit)
  | _, _ => .err .returnMismatch

/-- The statement loop of `TypeChecker.check`: check each statement in
turn; at the **last** statement, when the contract declares outputs,
require it to be an `ExpressionStmt`, re-infer its type, and compare with
the declared output type (falling back to `validateObjectMatch` when the
types are unequal).  The loop body never runs for an empty statement
list, so an empty program passes unconditionally. -/
def checkLoop (fuel : Nat) : List Stmt → TyEnv → ContractDef → Out TErr Unit
  | [], _, _ => .ok ()
  | [s] , env, c =>
      match checkStatement fuel env s with
      | .ok env' =>
          match c.outputs with
          | some tout =>
              match s with
              | .exprStmt e =>
                  match checkExpression fuel env' e with
                  | .ok tActual =>
                      match areTypesEqual fuel tout tActual with
                      | some true => .ok ()
                      | some false => validateObjectMatch fuel tout tActual
                      | none => .fuelOut
                  | .err er => .err er
                  | .fuelOut => .fuelOut
              | _ => .err .notEndingWithExpression
          | none => .ok ()
      | .err er => .err er
      | .fuelOut => .fuelOut
  | s :: rest, env, c =>
      match checkStatement fuel env s with
      | .ok env' => checkLoop fuel rest env' c
      | .err er => .err er
      | .fuelOut => .fuelOut

/-- `TypeChecker.check`: seed the variable map from the contract's inputs
and run the loop. -/
def check (fuel : Nat) (statements : List Stmt) (contract : ContractDef) : Out TErr Unit :=
  checkLoop fuel statements contract.inputs contract

/-! ### The lexer

From the second `Lexer` class in `src/src/checker/TypeChecker.ts` (the
variant with the `in` keyword, `//` comments and the full operator set,
which is the one the pipeline uses). -/

/-- `TokenType` of `src/src/common/TokenType.ts`.  Note that `TYPE_DATE`
exists in the enum (and `Parser.varDeclaration` matches on it), even
though no lexer ever produces it. -/
inductive TokenType where
  | NUMBER | STRING | IDENTIFIER
  | LET | IF | ELSE | TRUE | FALSE
  | TYPE_INT | TYPE_STRING | TYPE_BOOL | TYPE_DATE
  | EQUALS | PLUS | MINUS | MULTIPLY | DIVIDE
  | EQ_EQ | BANG_EQ | GREATER | GREATER_EQUAL | LESS | LESS_EQUAL
  | AND | OR | BANG
  | SEMICOLON | COLON | LPAREN | RPAREN | LBRACE | RBRACE | COMMA | DOT
  | LBRACKET | RBRACKET | IN
  | EOF
deriving DecidableEq

structure Token where
  type : TokenType
  value : String
  line : Nat
deriving DecidableEq

/-- Lexical errors (`throw` sites of the lexer), plus the fuel marker. -/
inductive LexErr where
  | unexpectedChar (c : Char) (line : Nat)
  | unterminatedString
  | fuelOut
deriving DecidableEq

/-- The keyword table (`Lexer.keywords`): nine entries — `date` is **not**
among them, so the lexeme `date` falls through to `IDENTIFIER`. -/
def keywords : List (String × TokenType) :=
  [("let", .LET), ("if", .IF), ("else", .ELSE), ("true", .TRUE), ("false", .FALSE),
   ("int", .TYPE_INT), ("string", .TYPE_STRING), ("bool", .TYPE_BOOL), ("in", .IN)]

def keywordLookup : List (String × TokenType) → String → Option TokenType
  | [], _ => none
  | (k, t) :: rest, s => if k = s then some t else keywordLookup rest s

/-- JS `/\s/` on the ASCII range (the sources contain no Unicode
whitespace). -/
def isSpaceChar (c : Char) : Bool :=
  c = ' ' || c = '\t' || c = '\n' || c = '\r' || c = '\x0b' || c = '\x0c'

def isDigitChar (c : Char) : Bool := '0' ≤ c && c ≤ '9'

def isAlphaChar (c : Char) : Bool :=
  ('a' ≤ c && c ≤ 'z') || ('A' ≤ c && c ≤ 'Z') || c = '_'

def isIdentChar (c : Char) : Bool := isAlphaChar c || isDigitChar c

/-- The scanning loop of `Lexer.tokenize`, fuelled (every iteration
consumes at least one character, so `length + 1` fuel always suffices). -/
def tokLoop : Nat → List Char → Nat → List Token → Except LexErr (List Token)
  | 0, _, _, _ => .error .fuelOut
  | _ + 1, [], line, acc => .ok (acc ++ [⟨.EOF, "", line⟩])
  | fuel + 1, c :: cs, line, acc =>
    if isSpaceChar c then
      tokLoop fuel cs (if c = '\n' then line + 1 else line) acc
    else if isDigitChar c then
      let run := (c :: cs).takeWhile isDigitChar
      tokLoop fuel ((c :: cs).dropWhile isDigitChar) line
        (acc ++ [⟨.NUMBER, run.asString, line⟩])
    else if isAlphaChar c then
      let run := (c :: cs).takeWhile isIdentChar
      let lexeme := run.asString
      let ty := (keywordLookup keywords lexeme).getD .IDENTIFIER
      tokLoop fuel ((c :: cs).dropWhile isIdentChar) line (acc ++ [⟨ty, lexeme, line⟩])
    else if c = '"' then
      let content := cs.takeWhile (· ≠ '"')
      let rest := cs.dropWhile (· ≠ '"')
      match rest with
      | [] => .error .unterminatedString
      | _ :: rest' => tokLoop fuel rest' line (acc ++ [⟨.STRING, content.asString, line⟩])
    else if c = '=' then
      match cs with
      | '=' :: rest => tokLoop fuel rest line (acc ++ [⟨.EQ_EQ, "==", line⟩])
      | _ => tokLoop fuel cs line (acc ++ [⟨.EQUALS, "=", line⟩])
    else if c = '!' then
      match cs with
      | '=' :: rest => tokLoop fuel rest line (acc ++ [⟨.BANG_EQ, "!=", line⟩])
      | _ => tokLoop fuel cs line (acc ++ [⟨.BANG, "!", line⟩])
    else if c = '>' then
      match cs with
      | '=' :: rest => tokLoop fuel rest line (acc ++ [⟨.GREATER_EQUAL, ">=", line⟩])
      | _ => tokLoop fuel cs line (acc ++ [⟨.GREATER, ">", line⟩])
    else if c = '<' then
      match cs with
      | '=' :: rest => tokLoop fuel rest line (acc ++ [⟨.LESS_EQUAL, "<=", line⟩])
      | _ => tokLoop fuel cs line (acc ++ [⟨.LESS, "<", line⟩])
    else if c = '&' then
      match cs with
      | '&' :: rest => tokLoop fuel rest line (acc ++ [⟨.AND, "&&", line⟩])
      | _ => .error (.unexpectedChar '&' line)
    else if c = '|' then
      match cs with
      | '|' :: rest => tokLoop fuel rest line (acc ++ [⟨.OR, "||", line⟩])
      | _ => .error (.unexpectedChar '|' line)
    else if c = '+' then tokLoop fuel cs line (acc ++ [⟨.PLUS, "+", line⟩])
    else if c = '-' then tokLoop fuel cs line (acc ++ [⟨.MINUS, "-", line⟩])
    else if c = '*' then tokLoop fuel cs line (acc ++ [⟨.MULTIPLY, "*", line⟩])
    else if c = '/' then
      match cs with
      | '/' :: _ =>
          -- comment: skip until end of line (the newline itself is left
          -- for the whitespace rule, which increments the line counter)
          tokLoop fuel ((c :: cs).dropWhile (· ≠ '\n')) line acc
      | _ => tokLoop fuel cs line (acc ++ [⟨.DIVIDE, "/", line⟩])
    else if c = ';' then tokLoop fuel cs line (acc ++ [⟨.SEMICOLON, ";", line⟩])
    else if c = ':' then tokLoop fuel cs line (acc ++ [⟨.COLON, ":", line⟩])
    else if c = '(' then tokLoop fuel cs line (acc ++ [⟨.LPAREN, "(", line⟩])
    else if c = ')' then tokLoop fuel cs line (acc ++ [⟨.RPAREN, ")", line⟩])
    else if c = '\x7b' then tokLoop fuel cs line (acc ++ [⟨.LBRACE, "\x7b", line⟩])
    else if c = '\x7d' then tokLoop fuel cs line (acc ++ [⟨.RBRACE, "\x7d", line⟩])
    else if c = '[' then tokLoop fuel cs line (acc ++ [⟨.LBRACKET, "[", line⟩])
    else if c = ']' then tokLoop fuel cs line (acc ++ [⟨.RBRACKET, "]", line⟩])
    else if c = '.' then tokLoop fuel cs line (acc ++ [⟨.DOT, ".", line⟩])
    else if c = ',' then tokLoop fuel cs line (acc ++ [⟨.COMMA, ",", line⟩])
    else .error (.unexpectedChar c line)

/-- `Lexer.tokenize`. -/
def tokenize (source : String) : Except LexErr (List Token) :=
  tokLoop (source.toList.length + 1) source.toList 1 []

/-- Frame property of the `exists` / `all` iteration: starting from
`st1`, the loop only ever rebinds the lambda parameter (by `Map.set`),
so its final environment is `st1`'s with at most the parameter's binding
changed, and the allocation counter never decreases.  `g` stands for the
evaluation of the lambda body. -/
theorem macroFold_frame (g : St → Out RErr Value × St) (param : String) (sv : Bool)
    (hg : ∀ st, ((g st).2).env = st.env ∧ st.nextId ≤ ((g st).2).nextId)
    (st1 : St) (items : List Value) :
    ∃ laF stF,
      items.foldl
        (fun (acc : LoopAcc × St) (item : Value) =>
          match acc with
          | (.running, st') =>
              match g ⟨envSet st'.env param item, st'.nextId⟩ with
              | (.ok (.bool b), st'') =>
                  if b = sv then ((.finished : LoopAcc), st'') else (.running, st'')
              | (.ok _, st'') => (.running, st'')
              | (.err er, st'') => (.failed er, st'')
              | (.fuelOut, st'') => (.out, st'')
          | other => other)
        ((.running : LoopAcc), st1) = (laF, stF) ∧
      (stF.env = st1.env ∨ ∃ w, stF.env = envSet st1.env param w) ∧
      st1.nextId ≤ stF.nextId := by
  have main : ∀ (l : List Value) (acc : LoopAcc × St),
      (((acc.2).env = st1.env ∨ ∃ w, (acc.2).env = envSet st1.env param w) ∧
        st1.nextId ≤ (acc.2).nextId) →
      ∃ laF stF,
        l.foldl
          (fun (acc : LoopAcc × St) (item : Value) =>
            match acc with
            | (.running, st') =>
                match g ⟨envSet st'.env param item, st'.nextId⟩ with
                | (.ok (.bool b), st'') =>
                    if b = sv then ((.finished : LoopAcc), st'') else (.running, st'')
                | (.ok _, st'') => (.running, st'')
                | (.err er, st'') => (.failed er, st'')
                | (.fuelOut, st'') => (.out, st'')
            | other => other)
          acc = (laF, stF) ∧
        (stF.env = st1.env ∨ ∃ w, stF.env = envSet st1.env param w) ∧
        st1.nextId ≤ stF.nextId := by
    intro l
    induction l with
    | nil =>
        rintro ⟨la, accSt⟩ h
        exact ⟨la, accSt, rfl, h.1, h.2⟩
    | cons item t ihl =>
        rintro ⟨la, accSt⟩ ⟨hAe, hAn⟩
        simp only [List.foldl_cons]
        apply ihl
        cases la with
        | running =>
            have hb := hg ⟨envSet accSt.env param item, accSt.nextId⟩
            rcases hbb : g ⟨envSet accSt.env param item, accSt.nextId⟩ with ⟨resB, stB⟩
            rw [hbb] at hb
            have hbe : stB.env = envSet accSt.env param item := hb.1
            have hbn : accSt.nextId ≤ stB.nextId := hb.2
            have hAn' : st1.nextId ≤ accSt.nextId := hAn
            have henv : stB.env = envSet st1.env param item := by
              rcases hAe with h | ⟨w, h⟩
              · have h' : accSt.env = st1.env := h
                rw [hbe, h']
              · have h' : accSt.env = envSet st1.env param w := h
                rw [hbe, h', envSet_envSet]
            have hnum : st1.nextId ≤ stB.nextId := hAn'.trans hbn
            cases resB with
            | ok vB =>
                cases vB <;> simp only [hbb] <;> (try split) <;>
                  exact ⟨Or.inr ⟨item, by simpa using henv⟩, by simpa using hnum⟩
            | err e =>
                simp only [hbb]
                exact ⟨Or.inr ⟨item, by simpa using henv⟩, by simpa using hnum⟩
            | fuelOut =>
                simp only [hbb]
                exact ⟨Or.inr ⟨item, by simpa using henv⟩, by simpa using hnum⟩
        | finished => exact ⟨hAe, hAn⟩
        | failed e => exact ⟨hAe, hAn⟩
        | out => exact ⟨hAe, hAn⟩
  exact main items ((.running : LoopAcc), st1) (by simp)

/-- Frame property of expression evaluation: an expression never changes
the environment (the `exists` / `all` iteration rebinds its parameter but
the `finally` block restores it on every exit), and the allocation
counter never decreases. -/
theorem evaluate_frame :
    ∀ (fuel : Nat) (e : Expr) (st : St),
      ((evaluate fuel e st).2).env = st.env ∧
        st.nextId ≤ ((evaluate fuel e st).2).nextId := by
  intro fuel
  induction fuel with
  | zero => intro e st; simp [evaluate]
  | succ fuel ih =>
      intro e st
      cases e with
      | lit v t => simp [evaluate]
      | var name => simp [evaluate]
      | lam p b => simp [evaluate]
      | unary op r =>
          have hr := ih r st
          simp only [evaluate]
          rcases hrr : evaluate fuel r st with ⟨res, st'⟩
          rw [hrr] at hr
          cases res <;> simpa using hr
      | binary l op r =>
          have hl := ih l st
          simp only [evaluate]
          rcases hll : evaluate fuel l st with ⟨resL, st1⟩
          rw [hll] at hl
          cases resL with
          | ok lv =>
              have hr := ih r st1
              rcases hrr : evaluate fuel r st1 with ⟨resR, st2⟩
              rw [hrr] at hr
              cases resR <;>
                simp_all <;> omega
          | err e => simpa using hl
          | fuelOut => simpa using hl
      | member o p =>
          have ho := ih o st
          simp only [evaluate]
          rcases hoo : evaluate fuel o st with ⟨res, st'⟩
          rw [hoo] at ho
          cases res with
          | ok v =>
              cases v <;> try simp_all
              all_goals (repeat' split) <;> simp_all
          | err e => simpa using ho
          | fuelOut => simpa using ho
      | listE elements =>
          simp only [evaluate]
          have hfold :
              (((elements.foldl
                (fun (acc : Out RErr (List Value) × St) (a : Expr) =>
                  match acc with
                  | (.ok vs, st') =>
                      match evaluate fuel a st' with
                      | (.ok v, st'') => ((.ok (vs ++ [v]) : Out RErr (List Value)), st'')
                      | (.err er, st'') => (.err er, st'')
                      | (.fuelOut, st'') => (.fuelOut, st'')
                  | other => other)
                ((.ok [], st) : Out RErr (List Value) × St)).2).env = st.env ∧
                st.nextId ≤ ((elements.foldl
                (fun (acc : Out RErr (List Value) × St) (a : Expr) =>
                  match acc with
                  | (.ok vs, st') =>
                      match evaluate fuel a st' with
                      | (.ok v, st'') => ((.ok (vs ++ [v]) : Out RErr (List Value)), st'')
                      | (.err er, st'') => (.err er, st'')
                      | (.fuelOut, st'') => (.fuelOut, st'')
                  | other => other)
                ((.ok [], st) : Out RErr (List Value) × St)).2).nextId) := by
            refine foldl_inv
              (P := fun (acc : Out RErr (List Value) × St) =>
                (acc.2).env = st.env ∧ st.nextId ≤ (acc.2).nextId)
              ?_ elements _ (by simp)
            rintro ⟨accRes, accSt⟩ a ⟨hAe, hAn⟩
            cases accRes with
            | ok vs =>
                have ha := ih a accSt
                rcases haa : evaluate fuel a accSt with ⟨res, st''⟩
                rw [haa] at ha
                cases res <;> simp_all <;> omega
            | err e => simpa using ⟨hAe, hAn⟩
            | fuelOut => simpa using ⟨hAe, hAn⟩
          rcases hfd : elements.foldl _ _ with ⟨resF, stF⟩
          rw [hfd] at hfold
          cases resF <;> simp_all <;> omega
      | objE properties =>
          simp only [evaluate]
          have hfold :
              (((properties.foldl
                (fun (acc : Out RErr (List (String × Value)) × St) (kv : String × Expr) =>
                  match acc with
                  | (.ok ps, st') =>
                      match evaluate fuel kv.2 st' with
                      | (.ok v, st'') => ((.ok (propSet ps kv.1 v) : Out RErr (List (String × Value))), st'')
                      | (.err er, st'') => (.err er, st'')
                      | (.fuelOut, st'') => (.fuelOut, st'')
                  | other => other)
                ((.ok [], st) : Out RErr (List (String × Value)) × St)).2).env = st.env ∧
                st.nextId ≤ ((properties.foldl
                (fun (acc : Out RErr (List (String × Value)) × St) (kv : String × Expr) =>
                  match acc with
                  | (.ok ps, st') =>
                      match evaluate fuel kv.2 st' with
                      | (.ok v, st'') => ((.ok (propSet ps kv.1 v) : Out RErr (List (String × Value))), st'')
                      | (.err er, st'') => (.err er, st'')
                      | (.fuelOut, st'') => (.fuelOut, st'')
                  | other => other)
                ((.ok [], st) : Out RErr (List (String × Value)) × St)).2).nextId) := by
            refine foldl_inv
              (P := fun (acc : Out RErr (List (String × Value)) × St) =>
                (acc.2).env = st.env ∧ st.nextId ≤ (acc.2).nextId)
              ?_ properties _ (by simp)
            rintro ⟨accRes, accSt⟩ kv ⟨hAe, hAn⟩
            cases accRes with
            | ok ps =>
                have ha := ih kv.2 accSt
                rcases haa : evaluate fuel kv.2 accSt with ⟨res, st''⟩
                rw [haa] at ha
                cases res <;> simp_all <;> omega
            | err e => simpa using ⟨hAe, hAn⟩
            | fuelOut => simpa using ⟨hAe, hAn⟩
          rcases hfd : properties.foldl _ _ with ⟨resF, stF⟩
          rw [hfd] at hfold
          cases resF <;> simp_all <;> omega
      | call callee args =>
          cases callee with
          | var cname =>
              by_cases hhas : cname = "has"
              · subst hhas
                cases args with
                | nil => simp [evaluate]
                | cons a rest =>
                    have ha := ih a st
                    simp only [evaluate]
                    rcases haa : evaluate fuel a st with ⟨res, st'⟩
                    rw [haa] at ha
                    cases res <;> simpa using ha
              · -- global function: arguments are folded, then dispatched
                simp only [evaluate]
                have hfold :
                    (((args.foldl
                      (fun (acc : Out RErr (List Value) × St) (a : Expr) =>
                        match acc with
                        | (.ok vs, st') =>
                            match evaluate fuel a st' with
                            | (.ok v, st'') => ((.ok (vs ++ [v]) : Out RErr (List Value)), st'')
                            | (.err er, st'') => (.err er, st'')
                            | (.fuelOut, st'') => (.fuelOut, st'')
                        | other => other)
                      ((.ok [], st) : Out RErr (List Value) × St)).2).env = st.env ∧
                      st.nextId ≤ ((args.foldl
                      (fun (acc : Out RErr (List Value) × St) (a : Expr) =>
                        match acc with
                        | (.ok vs, st') =>
                            match evaluate fuel a st' with
                            | (.ok v, st'') => ((.ok (vs ++ [v]) : Out RErr (List Value)), st'')
                            | (.err er, st'') => (.err er, st'')
                            | (.fuelOut, st'') => (.fuelOut, st'')
                        | other => other)
                      ((.ok [], st) : Out RErr (List Value) × St)).2).nextId) := by
                  refine foldl_inv
                    (P := fun (acc : Out RErr (List Value) × St) =>
                      (acc.2).env = st.env ∧ st.nextId ≤ (acc.2).nextId)
                    ?_ args _ (by simp)
                  rintro ⟨accRes, accSt⟩ a ⟨hAe, hAn⟩
                  cases accRes with
                  | ok vs =>
                      have ha := ih a accSt
                      rcases haa : evaluate fuel a accSt with ⟨res, st''⟩
                      rw [haa] at ha
                      cases res <;> simp_all <;> omega
                  | err e => simpa using ⟨hAe, hAn⟩
                  | fuelOut => simpa using ⟨hAe, hAn⟩
                rcases hfd : args.foldl _ _ with ⟨resF, stF⟩
                rw [hfd] at hfold
                cases resF with
                | ok vs =>
                    (repeat' split) <;> simp_all <;> omega
                | err e => simpa using hfold
                | fuelOut => simpa using hfold
          | member o prop =>
              simp only [evaluate]
              by_cases hm : (decide (prop = "exists") || decide (prop = "all")) = true
              · rw [if_pos hm]
                have ho := ih o st
                rcases hoo : evaluate fuel o st with ⟨resO, st1⟩
                rw [hoo] at ho
                cases resO with
                | ok v =>
                    cases v with
                    | list lid items =>
                        cases args with
                        | nil => simpa using ho
                        | cons a rest =>
                            cases a with
                            | lam param body =>
                                obtain ⟨laF, stF, hfd, hFe, hFn⟩ :=
                                  macroFold_frame (evaluate fuel body) param
                                    (decide (prop = "exists")) (fun s => ih body s) st1 items
                                have hrestore :
                                    (match envGet st1.env param with
                                      | some pv => envSet stF.env param pv
                                      | none => envDel stF.env param) = st1.env := by
                                  rcases hprev : envGet st1.env param with _ | pv
                                  · rcases hFe with h | ⟨w, h⟩
                                    · simp only [h, envDel_absent _ _ hprev]
                                    · simp only [h, envDel_envSet_absent _ _ _ hprev]
                                  · rcases hFe with h | ⟨w, h⟩
                                    · simp only [h, envSet_get_self _ _ _ hprev]
                                    · simp only [h, envSet_envSet, envSet_get_self _ _ _ hprev]
                                simp only [hfd]
                                cases laF <;>
                                  exact ⟨by rw [hrestore]; exact ho.1, ho.2.trans hFn⟩
                            | lit v t => simpa using ho
                            | var n => simpa using ho
                            | unary op r => simpa using ho
                            | binary l op r => simpa using ho
                            | member oo pp => simpa using ho
                            | listE es => simpa using ho
                            | objE ps => simpa using ho
                            | call c aa => simpa using ho
                    | num n => simpa using ho
                    | str s => simpa using ho
                    | bool b => simpa using ho
                    | date i ms => simpa using ho
                    | obj i ps => simpa using ho
                    | null => simpa using ho
                    | undef => simpa using ho
                | err e => simpa using ho
                | fuelOut => simpa using ho
              · rw [if_neg hm]
                simp
          | lit v t => simp [evaluate]
          | unary op r => simp [evaluate]
          | binary l op r => simp [evaluate]
          | listE es => simp [evaluate]
          | objE ps => simp [evaluate]
          | call c a => simp [evaluate]
          | lam p b => simp [evaluate]

/-! ### Shared concrete material for the claim theorems -/

/-- An integer literal as the parser produces it
(`{kind:'Literal', value: parseInt(...), type:'int'}`). -/
def intLit (n : ℤ) : Expr := .lit (.num (.fin n)) (.prim "int")

/-- A boolean literal as the parser produces it. -/
def boolLit (b : Bool) : Expr := .lit (.bool b) (.prim "bool")

/-- A string literal as the parser produces it. -/
def strLit (s : String) : Expr := .lit (.str s) (.prim "string")

/-- The interpreter state for an empty context. -/
def st0 : St := ⟨[], 0⟩

/-- The shape of a successful list-literal evaluation: the value is an
array carrying a fresh allocation id — the id equals the counter after
the elements were evaluated (so it is at least the starting counter) and
the final counter is one past it. -/
theorem evaluate_listE_ok (fuel : Nat) (es : List Expr) (st : St) (v : Value) (st' : St)
    (h : evaluate (fuel + 1) (.listE es) st = (.ok v, st')) :
    ∃ id elems, v = .list id elems ∧ st'.nextId = id + 1 ∧ st.nextId ≤ id := by
  have hfold :
      st.nextId ≤ ((es.foldl
        (fun (acc : Out RErr (List Value) × St) (a : Expr) =>
          match acc with
          | (.ok vs, stA) =>
              match evaluate fuel a stA with
              | (.ok w, stB) => ((.ok (vs ++ [w]) : Out RErr (List Value)), stB)
              | (.err er, stB) => (.err er, stB)
              | (.fuelOut, stB) => (.fuelOut, stB)
          | other => other)
        ((.ok [], st) : Out RErr (List Value) × St)).2).nextId := by
    refine foldl_inv
      (P := fun (acc : Out RErr (List Value) × St) => st.nextId ≤ (acc.2).nextId)
      ?_ es _ (by simp)
    rintro ⟨accRes, accSt⟩ a hAn
    cases accRes with
    | ok vs =>
        have ha := (evaluate_frame fuel a accSt).2
        rcases haa : evaluate fuel a accSt with ⟨res, stB⟩
        rw [haa] at ha
        cases res <;> simp_all <;> omega
    | err e => simpa using hAn
    | fuelOut => simpa using hAn
  revert h
  simp only [evaluate]
  rcases hfd : es.foldl _ _ with ⟨resF, stF⟩
  rw [hfd] at hfold
  cases resF with
  | ok vs =>
      intro h
      simp only [Prod.mk.injEq, Out.ok.injEq] at h
      exact ⟨stF.nextId, vs, h.1.symm, by rw [← h.2], by simpa using hfold⟩
  | err e => intro h; simp at h
  | fuelOut => intro h; simp at h

/-- The shape of a successful object-literal evaluation: the value is an
object carrying a fresh allocation id, exactly as for list literals. -/
theorem evaluate_objE_ok (fuel : Nat) (ps : List (String × Expr)) (st : St) (v : Value)
    (st' : St) (h : evaluate (fuel + 1) (.objE ps) st = (.ok v, st')) :
    ∃ id props, v = .obj id props ∧ st'.nextId = id + 1 ∧ st.nextId ≤ id := by
  have hfold :
      st.nextId ≤ ((ps.foldl
        (fun (acc : Out RErr (List (String × Value)) × St) (kv : String × Expr) =>
          match acc with
          | (.ok vs, stA) =>
              match evaluate fuel kv.2 stA with
              | (.ok w, stB) => ((.ok (propSet vs kv.1 w) : Out RErr (List (String × Value))), stB)
              | (.err er, stB) => (.err er, stB)
              | (.fuelOut, stB) => (.fuelOut, stB)
          | other => other)
        ((.ok [], st) : Out RErr (List (String × Value)) × St)).2).nextId := by
    refine foldl_inv
      (P := fun (acc : Out RErr (List (String × Value)) × St) => st.nextId ≤ (acc.2).nextId)
      ?_ ps _ (by simp)
    rintro ⟨accRes, accSt⟩ kv hAn
    cases accRes with
    | ok vs =>
        have ha := (evaluate_frame fuel kv.2 accSt).2
        rcases haa : evaluate fuel kv.2 accSt with ⟨res, stB⟩
        rw [haa] at ha
        cases res <;> simp_all <;> omega
    | err e => simpa using hAn
    | fuelOut => simpa using hAn
  revert h
  simp only [evaluate]
  rcases hfd : ps.foldl _ _ with ⟨resF, stF⟩
  rw [hfd] at hfold
  cases resF with
  | ok vs =>
      intro h
      simp only [Prod.mk.injEq, Out.ok.injEq] at h
      exact ⟨stF.nextId, vs, h.1.symm, by rw [← h.2], by simpa using hfold⟩
  | err e => intro h; simp at h
  | fuelOut => intro h; simp at h

/-- A successful `timestamp(s)` call on a parseable ISO string allocates
a fresh `Date` carrying the parsed instant. -/
theorem evaluate_timestamp (fuel : Nat) (s : String) (ms : JSNum) (st : St)
    (hp : jsDateParse s = some ms) :
    evaluate (fuel + 2) (.call (.var "timestamp") [.lit (.str s) (.prim "string")]) st =
      (.ok (.date st.nextId ms), ⟨st.env, st.nextId + 1⟩) := by
  simp [evaluate, hp]

/-! ### C1 — short-circuiting of `&&` and `||` -/

/-- C1 counterexample: the claim says that when the left operand of `&&`
is false the right operand is not evaluated and no runtime error from it
is raised.  In the code `evaluateBinary` evaluates both operands before
dispatching on the operator, so with a false left operand a runtime
error in the right operand (here: property access on the number `1`)
still propagates instead of yielding `false`. -/
theorem c1_counterexample :
    (evaluate 5 (.binary (boolLit false) "&&" (.member (intLit 1) "p")) st0).1 =
      .err .onlyObjectsHaveProperties := rfl

/-- C1 (amended): `&&` and `||` do not short-circuit — both operands are
always evaluated.  When both succeed, `a && b` yields `b` if `a` is
truthy and `a` otherwise, and `a || b` yields `a` if truthy else `b`
(so the pure truth-table agrees with short-circuit semantics), but an
error raised by the right operand propagates even when the left operand
already fixes the result. -/
theorem c1_amended :
    (∀ (fuel : Nat) (l r : Expr) (st : St) (lv rv : Value) (st1 st2 : St),
      evaluate fuel l st = (.ok lv, st1) →
      evaluate fuel r st1 = (.ok rv, st2) →
      evaluate (fuel + 1) (.binary l "&&" r) st = (.ok (if truthy lv then rv else lv), st2) ∧
      evaluate (fuel + 1) (.binary l "||" r) st = (.ok (if truthy lv then lv else rv), st2)) ∧
    (∀ (fuel : Nat) (l r : Expr) (st : St) (lv : Value) (st1 : St) (er : RErr) (st2 : St),
      evaluate fuel l st = (.ok lv, st1) →
      evaluate fuel r st1 = (.err er, st2) →
      evaluate (fuel + 1) (.binary l "&&" r) st = (.err er, st2) ∧
      evaluate (fuel + 1) (.binary l "||" r) st = (.err er, st2)) := by
  constructor
  · intro fuel l r st lv rv st1 st2 h1 h2
    constructor <;> simp [evaluate, h1, h2, evalBinaryOp]
  · intro fuel l r st lv st1 er st2 h1 h2
    constructor <;> simp [evaluate, h1, h2]

/-- C1 witness: the amended theorem applied at `false && true`. -/
theorem c1_witness :
    evaluate 2 (.binary (boolLit false) "&&" (boolLit true)) st0 =
      (.ok (if truthy (.bool false) then (.bool true : Value) else .bool false), st0) :=
  (c1_amended.1 1 (boolLit false) (boolLit true) st0 (.bool false) (.bool true) st0 st0
    rfl rfl).1

/-! ### C2 — what `has(...)` catches -/

/-- C2 counterexample: the claim says only "undefined variable" and
"missing property" runtime errors are converted to `false` and every
other error propagates out of `has`.  In the code `has` wraps its
argument in `try { ... } catch (e) { return false }` and converts
**any** thrown error: here the argument's evaluation raises "Only
objects have properties" (property access on the number `1`), which is
neither of the two claimed kinds, and `has` still returns `false`
instead of propagating it. -/
theorem c2_counterexample :
    (evaluate 5 (.call (.var "has") [.member (intLit 1) "p"]) st0).1 = .ok (.bool false) := rfl

/-- C2 (amended): `has(e)` returns `true` exactly when the evaluation of
`e` succeeds, and converts **every** evaluation error raised inside `e`
— not just "undefined variable" and "missing property" — to `false`. -/
theorem c2_amended :
    (∀ (fuel : Nat) (a : Expr) (rest : List Expr) (st : St) (v : Value) (st' : St),
      evaluate fuel a st = (.ok v, st') →
      evaluate (fuel + 1) (.call (.var "has") (a :: rest)) st = (.ok (.bool true), st')) ∧
    (∀ (fuel : Nat) (a : Expr) (rest : List Expr) (st : St) (er : RErr) (st' : St),
      evaluate fuel a st = (.err er, st') →
      evaluate (fuel + 1) (.call (.var "has") (a :: rest)) st = (.ok (.bool false), st')) := by
  constructor
  · intro fuel a rest st v st' h
    simp [evaluate, h]
  · intro fuel a rest st er st' h
    simp [evaluate, h]

/-- C2 witness: the amended theorem applied to `has` of a failing
property access (the error is "Only objects have properties", an error
kind outside the two the claim mentions). -/
theorem c2_witness :
    evaluate 5 (.call (.var "has") [.member (intLit 1) "p"]) st0 = (.ok (.bool false), st0) :=
  c2_amended.2 4 (.member (intLit 1) "p") [] st0 .onlyObjectsHaveProperties st0 rfl

/-! ### C3 — division by zero -/

/-- C3 counterexample: the claim says a well-typed division whose right
operand is `Int 0` raises a `RuntimeError`.  The code computes the JS
expression `left / right`, which never throws: `1 / 0` evaluates
successfully to `Infinity`. -/
theorem c3_counterexample :
    (evaluate 5 (.binary (intLit 1) "/" (intLit 0)) st0).1 = .ok (.num .posInf) := rfl

/-- C3 (amended): division by the Int value `0` raises no error — it
produces the JS value `NaN` when the dividend is `0`, `Infinity` when it
is positive, and `-Infinity` when it is negative. -/
theorem c3_amended (fuel : Nat) (a : ℚ) (st : St) :
    evaluate (fuel + 2) (.binary (.lit (.num (.fin a)) (.prim "int")) "/"
        (.lit (.num (.fin 0)) (.prim "int"))) st =
      (.ok (.num (if a = 0 then .nan else if 0 < a then .posInf else .negInf)), st) := by
  simp [evaluate, evalBinaryOp, toNumber, jsNumDiv]

/-! ### C4 — equality and membership semantics -/

/-- Evaluating a list of integer literals inside a list literal yields
the corresponding number values without touching the state. -/
theorem fold_int_literals (fuel : Nat) (ys : List ℚ) (st : St) (acc : List Value) :
    (ys.map fun y => (.lit (.num (.fin y)) (.prim "int") : Expr)).foldl
      (fun (a : Out RErr (List Value) × St) (e : Expr) =>
        match a with
        | (.ok vs, stA) =>
            match evaluate (fuel + 1) e stA with
            | (.ok w, stB) => ((.ok (vs ++ [w]) : Out RErr (List Value)), stB)
            | (.err er, stB) => (.err er, stB)
            | (.fuelOut, stB) => (.fuelOut, stB)
        | other => other)
      ((.ok acc, st) : Out RErr (List Value) × St) =
    (.ok (acc ++ ys.map fun y => Value.num (.fin y)), st) := by
  induction ys generalizing acc with
  | nil => simp
  | cons y t ih =>
      simp only [List.map_cons, List.foldl_cons]
      rw [show (evaluate (fuel + 1) (.lit (.num (.fin y)) (.prim "int")) st)
            = (.ok (.num (.fin y)), st) from rfl]
      simpa using ih (acc ++ [Value.num (.fin y)])

/-- C4 counterexample: the claim says `==` compares by deep structural
equality (two lists with equal contents compare equal) and `in` tests
membership by structural equality.  The code uses JS `===` /
`Array.prototype.includes`, which compare arrays by reference: two
separately constructed `[1]` literals compare unequal, and `[1]` is not
found inside `[[1]]`. -/
theorem c4_counterexample :
    (evaluate 9 (.binary (.listE [intLit 1]) "==" (.listE [intLit 1])) st0).1 =
      .ok (.bool false) ∧
    (evaluate 9 (.binary (.listE [intLit 1]) "in" (.listE [.listE [intLit 1]])) st0).1 =
      .ok (.bool false) := ⟨rfl, rfl⟩

/-- C4 (amended): `==` and `!=` compare `Int`, `String` and `Bool`
operands by value, but lists, objects and dates by reference identity —
two list literals, two object literals, or two `timestamp` calls, being
separately allocated, **always** compare unequal (`==` false, `!=` true)
regardless of their contents; `x in xs` uses the same identity-based
SameValueZero comparison, which is value-membership only for primitive
elements (shown here for `Int` lists). -/
theorem c4_amended :
    (∀ (fuel : Nat) (a b : ℚ) (st : St),
      evaluate (fuel + 2) (.binary (.lit (.num (.fin a)) (.prim "int")) "=="
          (.lit (.num (.fin b)) (.prim "int"))) st =
        (.ok (.bool (decide (a = b))), st) ∧
      evaluate (fuel + 2) (.binary (.lit (.num (.fin a)) (.prim "int")) "!="
          (.lit (.num (.fin b)) (.prim "int"))) st =
        (.ok (.bool (!decide (a = b))), st)) ∧
    (∀ (fuel : Nat) (s t : String) (st : St),
      evaluate (fuel + 2) (.binary (.lit (.str s) (.prim "string")) "=="
          (.lit (.str t) (.prim "string"))) st =
        (.ok (.bool (decide (s = t))), st) ∧
      evaluate (fuel + 2) (.binary (.lit (.str s) (.prim "string")) "!="
          (.lit (.str t) (.prim "string"))) st =
        (.ok (.bool (!decide (s = t))), st)) ∧
    (∀ (fuel : Nat) (a b : Bool) (st : St),
      evaluate (fuel + 2) (.binary (.lit (.bool a) (.prim "bool")) "=="
          (.lit (.bool b) (.prim "bool"))) st =
        (.ok (.bool (decide (a = b))), st) ∧
      evaluate (fuel + 2) (.binary (.lit (.bool a) (.prim "bool")) "!="
          (.lit (.bool b) (.prim "bool"))) st =
        (.ok (.bool (!decide (a = b))), st)) ∧
    (∀ (fuel : Nat) (es1 es2 : List Expr) (st : St) (v1 v2 : Value) (st1 st2 : St),
      evaluate fuel (.listE es1) st = (.ok v1, st1) →
      evaluate fuel (.listE es2) st1 = (.ok v2, st2) →
      evaluate (fuel + 1) (.binary (.listE es1) "==" (.listE es2)) st =
        (.ok (.bool false), st2) ∧
      evaluate (fuel + 1) (.binary (.listE es1) "!=" (.listE es2)) st =
        (.ok (.bool true), st2)) ∧
    (∀ (fuel : Nat) (ps1 ps2 : List (String × Expr)) (st : St) (v1 v2 : Value) (st1 st2 : St),
      evaluate fuel (.objE ps1) st = (.ok v1, st1) →
      evaluate fuel (.objE ps2) st1 = (.ok v2, st2) →
      evaluate (fuel + 1) (.binary (.objE ps1) "==" (.objE ps2)) st =
        (.ok (.bool false), st2) ∧
      evaluate (fuel + 1) (.binary (.objE ps1) "!=" (.objE ps2)) st =
        (.ok (.bool true), st2)) ∧
    (∀ (fuel : Nat) (s1 s2 : String) (ms1 ms2 : JSNum) (st : St),
      jsDateParse s1 = some ms1 → jsDateParse s2 = some ms2 →
      evaluate (fuel + 3) (.binary
          (.call (.var "timestamp") [.lit (.str s1) (.prim "string")]) "=="
          (.call (.var "timestamp") [.lit (.str s2) (.prim "string")])) st =
        (.ok (.bool false), ⟨st.env, st.nextId + 1 + 1⟩) ∧
      evaluate (fuel + 3) (.binary
          (.call (.var "timestamp") [.lit (.str s1) (.prim "string")]) "!="
          (.call (.var "timestamp") [.lit (.str s2) (.prim "string")])) st =
        (.ok (.bool true), ⟨st.env, st.nextId + 1 + 1⟩)) ∧
    (∀ (fuel : Nat) (x : ℚ) (ys : List ℚ) (st : St),
      evaluate (fuel + 3) (.binary (.lit (.num (.fin x)) (.prim "int")) "in"
          (.listE (ys.map fun y => .lit (.num (.fin y)) (.prim "int")))) st =
        (.ok (.bool (ys.any fun y => decide (y = x))), ⟨st.env, st.nextId + 1⟩)) := by
  refine ⟨?_, ?_, ?_, ?_, ?_, ?_, ?_⟩
  · intro fuel a b st
    constructor <;> simp [evaluate, evalBinaryOp, strictEq, jsNumStrictEq]
  · intro fuel s t st
    constructor <;> simp [evaluate, evalBinaryOp, strictEq]
  · intro fuel a b st
    constructor <;> simp [evaluate, evalBinaryOp, strictEq]
  · intro fuel es1 es2 st v1 v2 st1 st2 h1 h2
    cases fuel with
    | zero => simp [evaluate] at h1
    | succ g =>
        obtain ⟨id1, elems1, hv1, hn1, hge1⟩ := evaluate_listE_ok g es1 st v1 st1 h1
        obtain ⟨id2, elems2, hv2, hn2, hge2⟩ := evaluate_listE_ok g es2 st1 v2 st2 h2
        have hid : id1 ≠ id2 := by omega
        subst hv1 hv2
        constructor <;>
          (conv_lhs => rw [evaluate]) <;> simp only [h1, h2] <;>
            simp [evalBinaryOp, strictEq, hid]
  · intro fuel ps1 ps2 st v1 v2 st1 st2 h1 h2
    cases fuel with
    | zero => simp [evaluate] at h1
    | succ g =>
        obtain ⟨id1, props1, hv1, hn1, hge1⟩ := evaluate_objE_ok g ps1 st v1 st1 h1
        obtain ⟨id2, props2, hv2, hn2, hge2⟩ := evaluate_objE_ok g ps2 st1 v2 st2 h2
        have hid : id1 ≠ id2 := by omega
        subst hv1 hv2
        constructor <;>
          (conv_lhs => rw [evaluate]) <;> simp only [h1, h2] <;>
            simp [evalBinaryOp, strictEq, hid]
  · intro fuel s1 s2 ms1 ms2 st h1 h2
    have ht1 := evaluate_timestamp fuel s1 ms1 st h1
    have ht2 := evaluate_timestamp fuel s2 ms2 ⟨st.env, st.nextId + 1⟩ h2
    have hid : st.nextId ≠ st.nextId + 1 := by omega
    constructor <;>
      (conv_lhs => rw [evaluate]) <;> simp only [ht1, ht2] <;>
        simp [evalBinaryOp, strictEq, hid]
  · intro fuel x ys st
    have hlist :
        evaluate (fuel + 2) (.listE (ys.map fun y => .lit (.num (.fin y)) (.prim "int"))) st =
          (.ok (.list st.nextId (ys.map fun y => Value.num (.fin y))),
            ⟨st.env, st.nextId + 1⟩) := by
      conv_lhs => rw [evaluate]
      rw [fold_int_literals fuel ys st []]
      simp
    have hlit :
        evaluate (fuel + 2) (.lit (.num (.fin x)) (.prim "int")) st =
          (.ok (.num (.fin x)), st) := rfl
    have hany : ∀ (zs : List ℚ),
        ((zs.map fun y => Value.num (.fin y)).any fun v => sameValueZero v (.num (.fin x)))
          = zs.any fun y => decide (y = x) := by
      intro zs
      induction zs with
      | nil => rfl
      | cons z t ih =>
          simp only [List.map_cons, List.any_cons, ih]
          rfl
    conv_lhs => rw [evaluate]
    simp only [hlit, hlist]
    simp [evalBinaryOp, jsIncludes, hany]

/-- C4 witness: the list-, object- and date-identity conjuncts applied
at concrete inputs — two `[1]` literals, two `\x7b\x7d` literals, and two
`timestamp("2023-01-01")` calls. -/
theorem c4_witness :
    evaluate 9 (.binary (.listE [intLit 1]) "==" (.listE [intLit 1])) st0 =
      (.ok (.bool false), ⟨[], 2⟩) ∧
    evaluate 3 (.binary (.objE []) "==" (.objE [])) st0 =
      (.ok (.bool false), ⟨[], 2⟩) ∧
    evaluate 9 (.binary (.call (.var "timestamp") [strLit "2023-01-01"]) "=="
      (.call (.var "timestamp") [strLit "2023-01-01"])) st0 =
      (.ok (.bool false), ⟨[], 2⟩) :=
  ⟨(c4_amended.2.2.2.1 8 [intLit 1] [intLit 1] st0 (.list 0 [.num (.fin 1)])
      (.list 1 [.num (.fin 1)]) ⟨[], 1⟩ ⟨[], 2⟩ rfl rfl).1,
   (c4_amended.2.2.2.2.1 2 [] [] st0 (.obj 0 []) (.obj 1 []) ⟨[], 1⟩ ⟨[], 2⟩ rfl rfl).1,
   (c4_amended.2.2.2.2.2.1 6 "2023-01-01" "2023-01-01"
      (.fin 72714326400) (.fin 72714326400) st0 rfl rfl).1⟩

/-! ### C5 — `Unknown` as a unification wildcard -/

/-- C5 counterexample: the claim says `Unknown ~ T` holds for **every**
type `T` and that `List(Unknown)` unifies with every list type including
lists of objects and lists of lists.  `areTypesEqual` implements the
wildcard only in its both-primitives branch: `'unknown'` against a list
type is `false`, and `List(Unknown)` fails to unify with a list of
objects or a list of lists. -/
theorem c5_counterexample :
    areTypesEqual 3 (.prim "unknown") (.list (.prim "int")) = some false ∧
    areTypesEqual 5 (.list (.prim "unknown")) (.list (.obj [("a", .prim "int")])) = some false ∧
    areTypesEqual 5 (.list (.prim "unknown")) (.list (.list (.prim "int"))) = some false :=
  ⟨rfl, rfl, rfl⟩

/-- C5 (amended): `Unknown` is a wildcard among **primitive** types only:
`areTypesEqual` accepts `'unknown'` against `T` exactly when `T` is a
primitive (in either argument order), and consequently `List(Unknown)`
unifies with `List(T)` exactly when `T` is a primitive — with lists of
primitives but not with lists of objects or lists of lists. -/
theorem c5_amended (fuel : Nat) (t : Ty) :
    areTypesEqual (fuel + 1) (.prim "unknown") t = some t.isPrim ∧
    areTypesEqual (fuel + 1) t (.prim "unknown") = some t.isPrim ∧
    areTypesEqual (fuel + 2) (.list (.prim "unknown")) (.list t) = some t.isPrim := by
  cases t <;> simp [areTypesEqual, Ty.isPrim]

/-! ### C6 — `check` on an empty program -/

/-- C6: the claim (and the spec's negative scenario) requires that for a
contract declaring an output type, checking an **empty** statement list
raises the Type error "script does not end with an expression" and never
completes.  The output validation lives inside the per-statement loop of
`TypeChecker.check`, whose body never runs for an empty list, so the
check completes successfully — the declared output type is silently
ignored.  The second conjunct shows the error does fire as soon as the
list is non-empty with a non-expression last statement, confirming the
embedding reaches that `throw` site. -/
theorem c6_code_behavior :
    check 9 [] ⟨"empty", [], some (.prim "int")⟩ = .ok () ∧
    check 9 [.varDecl "x" (.prim "int") (.lit (.num (.fin 1)) (.prim "int"))]
        ⟨"empty", [], some (.prim "int")⟩ = .err .notEndingWithExpression ∧
    (∀ (fuel : Nat) (c : ContractDef), check fuel [] c = .ok ()) := by
  refine ⟨rfl, rfl, ?_⟩
  intro fuel c
  cases fuel <;> rfl

/-! ### C7 — the reserved-keyword table -/

/-- C7: the claim lists ten reserved keywords including `date`.  The
lexer's keyword table has only nine entries — `let if else true false
int string bool in` — and no `date`, so the lexeme `date` is emitted as
an `IDENTIFIER` token (even though `TokenType.TYPE_DATE` exists and
`Parser.varDeclaration` has a branch for it that can therefore never be
reached).  The nine present keywords do lex to their keyword tokens. -/
theorem c7_code_behavior :
    tokenize "date" = .ok [⟨.IDENTIFIER, "date", 1⟩, ⟨.EOF, "", 1⟩] ∧
    tokenize "let" = .ok [⟨.LET, "let", 1⟩, ⟨.EOF, "", 1⟩] ∧
    tokenize "if" = .ok [⟨.IF, "if", 1⟩, ⟨.EOF, "", 1⟩] ∧
    tokenize "else" = .ok [⟨.ELSE, "else", 1⟩, ⟨.EOF, "", 1⟩] ∧
    tokenize "true" = .ok [⟨.TRUE, "true", 1⟩, ⟨.EOF, "", 1⟩] ∧
    tokenize "false" = .ok [⟨.FALSE, "false", 1⟩, ⟨.EOF, "", 1⟩] ∧
    tokenize "int" = .ok [⟨.TYPE_INT, "int", 1⟩, ⟨.EOF, "", 1⟩] ∧
    tokenize "string" = .ok [⟨.TYPE_STRING, "string", 1⟩, ⟨.EOF, "", 1⟩] ∧
    tokenize "bool" = .ok [⟨.TYPE_BOOL, "bool", 1⟩, ⟨.EOF, "", 1⟩] ∧
    tokenize "in" = .ok [⟨.IN, "in", 1⟩, ⟨.EOF, "", 1⟩] ∧
    keywordLookup keywords "date" = none :=
  ⟨rfl, rfl, rfl, rfl, rfl, rfl, rfl, rfl, rfl, rfl, rfl⟩

/-! ### C8 — the value of the final statement -/

/-- C8 counterexample: the claim says `execute` returns `Null` whenever
the final statement is not an `ExprStmt`, in particular for a final
`If`.  `executeIf` returns the result of the branch it executes, so a
program ending in `if (true) 42` returns `42`, not `Null`. -/
theorem c8_counterexample :
    (interpret 9 [.ifStmt (boolLit true) (.exprStmt (intLit 42)) none] [] 0).1 =
      .ok (.num (.fin 42)) := rfl

/-- C8 (amended): `interpret` returns the value of the **final
statement's execution**, where `VarDecl` and `Assignment` yield `Null`,
an `If` yields the value of the branch it executes — the then branch on
a truthy condition, the else branch on a falsy one, and `Null` when the
condition is falsy and there is no else branch — a `Block` executes like
the top-level statement loop and so yields the value of its last inner
statement (`Null` when empty), and an `ExprStmt` yields its expression's
value. -/
theorem c8_amended :
    (∀ (fuel : Nat) (n : String) (ty : Ty) (e : Expr) (st : St) (v : Value) (st' : St),
      evaluate fuel e st = (.ok v, st') →
      execute (fuel + 1) (.varDecl n ty e) st =
        (.ok .null, ⟨envSet st'.env n v, st'.nextId⟩)) ∧
    (∀ (fuel : Nat) (n : String) (e : Expr) (st : St) (v : Value) (st' : St),
      evaluate fuel e st = (.ok v, st') → envHas st'.env n = true →
      execute (fuel + 1) (.assignment n e) st =
        (.ok .null, ⟨envSet st'.env n v, st'.nextId⟩)) ∧
    (∀ (fuel : Nat) (c : Expr) (t : Stmt) (els : Option Stmt) (st : St) (v : Value) (st' : St),
      evaluate fuel c st = (.ok v, st') → truthy v = true →
      execute (fuel + 1) (.ifStmt c t els) st = execute fuel t st') ∧
    (∀ (fuel : Nat) (c : Expr) (t : Stmt) (st : St) (v : Value) (st' : St),
      evaluate fuel c st = (.ok v, st') → truthy v = false →
      execute (fuel + 1) (.ifStmt c t none) st = (.ok .null, st')) ∧
    (∀ (fuel : Nat) (e : Expr) (st : St),
      execute (fuel + 1) (.exprStmt e) st = evaluate fuel e st) ∧
    (∀ (fuel : Nat) (ss : List Stmt) (s : Stmt) (st : St),
      runStmts fuel (ss ++ [s]) st =
        (match runStmts fuel ss st with
         | (.ok _, st') => execute fuel s st'
         | other => other)) ∧
    (∀ (fuel : Nat) (stmts : List Stmt) (ctx : Env) (fid : Nat),
      interpret fuel stmts ctx fid = runStmts fuel stmts ⟨ctx, fid⟩) ∧
    (∀ (fuel : Nat) (c : Expr) (t e2 : Stmt) (st : St) (v : Value) (st' : St),
      evaluate fuel c st = (.ok v, st') → truthy v = false →
      execute (fuel + 1) (.ifStmt c t (some e2)) st = execute fuel e2 st') ∧
    (∀ (fuel : Nat) (ss : List Stmt) (st : St),
      execute (fuel + 1) (.block ss) st = runStmts fuel ss st) ∧
    (∀ (fuel : Nat) (st : St), runStmts fuel [] st = (.ok .null, st)) := by
  refine ⟨?_, ?_, ?_, ?_, ?_, ?_, ?_, ?_, ?_, ?_⟩
  · intro fuel n ty e st v st' h
    simp [execute, h]
  · intro fuel n e st v st' h hb
    simp [execute, h, hb]
  · intro fuel c t els st v st' h ht
    simp [execute, h, ht]
  · intro fuel c t st v st' h ht
    simp [execute, h, ht]
  · intro fuel e st
    rfl
  · intro fuel ss s st
    simp only [runStmts, List.foldl_append, List.foldl_cons, List.foldl_nil]
  · intro fuel stmts ctx fid
    rfl
  · intro fuel c t e2 st v st' h ht
    simp [execute, h, ht]
  · intro fuel ss st
    rfl
  · intro fuel st
    rfl

/-- C8 witness: the truthy-if conjunct applied at `if (true) 42` and the
falsy-with-else conjunct applied at `if (false) 1 else 7`. -/
theorem c8_witness :
    (execute 9 (.ifStmt (boolLit true) (.exprStmt (intLit 42)) none) st0 =
      execute 8 (.exprStmt (intLit 42)) st0) ∧
    (execute 9 (.ifStmt (boolLit false) (.exprStmt (intLit 1))
        (some (.exprStmt (intLit 7)))) st0 =
      execute 8 (.exprStmt (intLit 7)) st0) :=
  ⟨c8_amended.2.2.1 8 (boolLit true) (.exprStmt (intLit 42)) none st0 (.bool true) st0 rfl rfl,
   c8_amended.2.2.2.2.2.2.2.1 8 (boolLit false) (.exprStmt (intLit 1)) (.exprStmt (intLit 7))
     st0 (.bool false) st0 rfl rfl⟩

/-! ### C9 — the macro restores the lambda parameter's binding -/

/-- C9: evaluating an `exists` / `all` macro call leaves the environment
exactly as it was — the loop saves the parameter's previous binding
before iterating and the `finally` block restores it (or removes the
parameter when it was unbound) on normal completion and on error alike,
and nothing else in the iteration writes any other binding.  This is the
frame property of expression evaluation specialised to the macro-call
shape; equality of the whole environment gives both parts of the claim
(the parameter's binding is restored, and no other binding changes). -/
theorem c9_macro_env_restore (fuel : Nat) (o : Expr) (prop param : String) (body : Expr)
    (args : List Expr) (st : St) (hprop : prop = "exists" ∨ prop = "all") :
    ((evaluate fuel (.call (.member o prop) (.lam param body :: args)) st).2).env = st.env :=
  (evaluate_frame fuel (.call (.member o prop) (.lam param body :: args)) st).1

/-- C9 witness: the theorem applied to `[1].exists(n, n > 0)` evaluated
in a state that already binds `n`. -/
theorem c9_witness :
    (("exists" = "exists" ∨ ("exists" : String) = "all") ∧
      ((evaluate 9 (.call (.member (.listE [intLit 1]) "exists")
          [.lam "n" (.binary (.var "n") ">" (intLit 0))])
        ⟨[("n", .str "kept")], 0⟩).2).env = [("n", .str "kept")]) :=
  ⟨Or.inl rfl,
    c9_macro_env_restore 9 (.listE [intLit 1]) "exists" "n"
      (.binary (.var "n") ">" (intLit 0)) [] ⟨[("n", .str "kept")], 0⟩ (Or.inl rfl)⟩

/-! ### C10 — unbound variables: expressions vs assignment -/

/-- C10: evaluating a `Variable` expression whose name is unbound does
not raise an "undefined variable" error — `environment.get` yields the
host's `undefined` value, which flows into enclosing operations; only an
`Assignment` statement targeting an unbound name raises the runtime
error `Undefined variable '...'` (after evaluating its right-hand
side). -/
theorem c10_unbound_variable :
    (∀ (fuel : Nat) (name : String) (st : St),
      envGet st.env name = none →
      evaluate (fuel + 1) (.var name) st = (.ok .undef, st)) ∧
    (∀ (fuel : Nat) (name : String) (e : Expr) (st : St) (v : Value) (st' : St),
      evaluate fuel e st = (.ok v, st') → envGet st'.env name = none →
      execute (fuel + 1) (.assignment name e) st =
        (.err (.undefinedVariable name), st')) := by
  constructor
  · intro fuel name st h
    simp [evaluate, h]
  · intro fuel name e st v st' h hn
    simp [execute, h, envHas, hn]

/-- C10 witness: both conjuncts applied at the unbound name `x`. -/
theorem c10_witness :
    evaluate 2 (.var "x") st0 = (.ok .undef, st0) ∧
    execute 2 (.assignment "x" (intLit 1)) st0 = (.err (.undefinedVariable "x"), st0) :=
  ⟨c10_unbound_variable.1 1 "x" st0 rfl,
    c10_unbound_variable.2 1 "x" (intLit 1) st0 (.num (.fin 1)) st0 rfl rfl⟩

end RuleEngine
